import Mathlib

/-!
# Verification of the contract-tx-scraper core

Shallow embedding of the repository's core:

* `src/main.py` — `process_transaction_task` (per-item pipeline and the two
  mode classifiers) and the aggregation loop of `run_analytics`;
* `src/config.py` — `Config.__post_init__` analysis-mode validation;
* the ABI Value Codec of spec §4.2.  `src/main.py` imports
  `decode_transaction_input` from `src.tx_details`, but `src/src/tx_details.py`
  defines no such function (its `get_input_data_tx` delegates decoding to the
  external web3 library), so the self-contained codec and call decoder exist in
  this repository only as specified; they are modelled from the spec where
  needed and marked as such.

Python result dictionaries are embedded as ordered association lists with
Python's dict-assignment semantics, so that statements about the presence of
keys are meaningful.  Machine words (32-byte transaction topics, ABI words)
are naturals; byte buffers are lists of naturals below 256.
-/

/-- A decoded ABI value (spec §3 `DecodedValue`): big integer (for `uintN` and
`intN`), 20-byte address, boolean, byte sequence, UTF-8 string, or an ordered
sequence of values (arrays and tuples). -/
inductive Value where
  | int (i : Int)
  | addr (a : Nat)
  | bool (b : Bool)
  | bytes (bs : List Nat)
  | str (s : String)
  | list (vs : List Value)

mutual
/-- Decidable equality for `Value` (the derived handler does not support the
nested occurrence of `List Value`). -/
def valueDecEq : (a b : Value) → Decidable (a = b)
  | .int a, .int b =>
    if h : a = b then isTrue (by rw [h]) else isFalse (by simp [h])
  | .int _, .addr _ => isFalse (by simp)
  | .int _, .bool _ => isFalse (by simp)
  | .int _, .bytes _ => isFalse (by simp)
  | .int _, .str _ => isFalse (by simp)
  | .int _, .list _ => isFalse (by simp)
  | .addr _, .int _ => isFalse (by simp)
  | .addr a, .addr b =>
    if h : a = b then isTrue (by rw [h]) else isFalse (by simp [h])
  | .addr _, .bool _ => isFalse (by simp)
  | .addr _, .bytes _ => isFalse (by simp)
  | .addr _, .str _ => isFalse (by simp)
  | .addr _, .list _ => isFalse (by simp)
  | .bool _, .int _ => isFalse (by simp)
  | .bool _, .addr _ => isFalse (by simp)
  | .bool a, .bool b =>
    if h : a = b then isTrue (by rw [h]) else isFalse (by simp [h])
  | .bool _, .bytes _ => isFalse (by simp)
  | .bool _, .str _ => isFalse (by simp)
  | .bool _, .list _ => isFalse (by simp)
  | .bytes _, .int _ => isFalse (by simp)
  | .bytes _, .addr _ => isFalse (by simp)
  | .bytes _, .bool _ => isFalse (by simp)
  | .bytes a, .bytes b =>
    if h : a = b then isTrue (by rw [h]) else isFalse (by simp [h])
  | .bytes _, .str _ => isFalse (by simp)
  | .bytes _, .list _ => isFalse (by simp)
  | .str _, .int _ => isFalse (by simp)
  | .str _, .addr _ => isFalse (by simp)
  | .str _, .bool _ => isFalse (by simp)
  | .str a, .str b =>
    if h : a = b then isTrue (by rw [h]) else isFalse (by simp [h])
  | .str _, .bytes _ => isFalse (by simp)
  | .str _, .list _ => isFalse (by simp)
  | .list _, .int _ => isFalse (by simp)
  | .list _, .addr _ => isFalse (by simp)
  | .list _, .bool _ => isFalse (by simp)
  | .list _, .bytes _ => isFalse (by simp)
  | .list _, .str _ => isFalse (by simp)
  | .list vs, .list ws =>
    match valueListDecEq vs ws with
    | isTrue h => isTrue (by rw [h])
    | isFalse h => isFalse (by simp [h])

/-- Pointwise decidable equality on lists of values. -/
def valueListDecEq : (as bs : List Value) → Decidable (as = bs)
  | [], [] => isTrue rfl
  | [], _ :: _ => isFalse (by simp)
  | _ :: _, [] => isFalse (by simp)
  | v :: vs, w :: ws =>
    match valueDecEq v w, valueListDecEq vs ws with
    | isTrue h1, isTrue h2 => isTrue (by rw [h1, h2])
    | isFalse h1, _ => isFalse (by simp [h1])
    | _, isFalse h2 => isFalse (by simp [h2])
end

instance : DecidableEq Value := valueDecEq

/-- A value stored in a result record (`result_entry` in `src/main.py`):
`None`, a boolean, a number (timestamp, token id), a string (hash, function
name, address, error message), or the decoded-parameter mapping. -/
inductive FVal where
  | null
  | b (x : Bool)
  | n (x : Nat)
  | s (x : String)
  | params (ps : List (String × Value))
  deriving DecidableEq

/-- A Python dictionary with string keys, embedded as an ordered association
list with unique keys maintained by `dset`. -/
abbrev Entry := List (String × FVal)

/-- Python dict assignment `d[k] = v`: overwrite in place if the key exists,
append otherwise. -/
def dset : Entry → String → FVal → Entry
  | [], k, v => [(k, v)]
  | (k', v') :: rest, k, v =>
      if k' = k then (k, v) :: rest else (k', v') :: dset rest k v

/-- Python dict read `d.get(k)` / membership `k in d`: first matching key. -/
def dget : Entry → String → Option FVal
  | [], _ => none
  | (k', v') :: rest, k => if k' = k then some v' else dget rest k

/-- The keys of a record, in insertion order. -/
def entryKeys (e : Entry) : List String := e.map Prod.fst

/-- Python truthiness of a record value (`if not result_entry[...]`). -/
def fvalTruthy : FVal → Bool
  | .null => false
  | .b x => x
  | .n x => x != 0
  | .s x => x != ""
  | .params ps => ps != []

/-- Python truthiness of an optional string (`None` and `""` are falsy). -/
def pyTruthy : Option String → Bool
  | none => false
  | some s => s != ""

/-- The fields of a `w3.eth.get_transaction` result that `src/main.py` reads:
`to`, `input` (raw call-data bytes) and `blockNumber` (absent while pending). -/
structure Tx where
  toAddr : Option String
  input : Option (List Nat)
  blockNumber : Option Nat
  deriving DecidableEq

/-- One receipt log: its ordered 32-byte topics, each as a 256-bit natural
(`topic.hex()` comparisons and slices in the source are injective images of
these numbers). -/
structure Log where
  topics : List Nat
  deriving DecidableEq

/-- The blockchain-client capability consumed by the pipeline (spec §6),
together with the Call Decoder boundary.  `Except.error e` models a raised
exception with text `e`; `Except.ok none` models a `None` result. -/
structure Env where
  /-- `w3.eth.get_transaction`. -/
  getTransaction : String → Except String (Option Tx)
  /-- `w3.eth.get_block(n).get('timestamp')`, with the whole fetch guarded by
  `try/except` in the source. -/
  getBlockTimestamp : Nat → Except String (Option Nat)
  /-- `w3.eth.get_transaction_receipt(h)["logs"]`. -/
  getReceiptLogs : String → Except String (List Log)
  /-- `w3.keccak(text="Transfer(address,address,uint256)")`, as a number. -/
  transferTopic : Nat
  /-- `w3.to_checksum_address` applied to a 20-byte (low-160-bit) value. -/
  toChecksumAddress : Nat → String
  /-- Modelled from the spec: `decode_transaction_input`, which `src/main.py`
  imports from `src.tx_details` but which is missing from the tree
  (`src/src/tx_details.py` defines only `get_input_data_tx`).  Per spec §4.3
  (Call Decoder) and the caller: given the transaction's input bytes and the
  resolved contract address (the ABI is fixed for the run), it returns the
  decoded function name with the ordered named parameters, or `none` when
  there is no input data or decoding fails. -/
  decodeTransactionInput :
    Option (List Nat) → String → Option (String × List (String × Value))

/-- The fixed key set of every result record (`src/main.py` lines 52-66 and
298-310). -/
def resultKeys : List String :=
  ["transaction_hash", "timestamp", "decoded_function", "decoded_parameters",
   "is_genesis_transition", "privado_decoding_successful", "is_minting_event",
   "recipient_address", "token_id", "civic_log_processing_successful", "error"]

/-- The freshly initialised `result_entry` (`src/main.py` lines 52-66). -/
def initialEntry (hexHash : String) : Entry :=
  [("transaction_hash", .s hexHash),
   ("timestamp", .null),
   ("decoded_function", .null),
   ("decoded_parameters", .null),
   ("is_genesis_transition", .b false),
   ("privado_decoding_successful", .b false),
   ("is_minting_event", .b false),
   ("recipient_address", .null),
   ("token_id", .null),
   ("civic_log_processing_successful", .b false),
   ("error", .null)]

/-- Message of a Python `IndexError` from an out-of-range `topics[i]`. -/
def indexErrorMsg : String := "list index out of range"

/-- One iteration of the civic log loop (`src/main.py` lines 136-143).  The
second component is the pending exception text if a `topics[i]` access was out
of range; the first component is the record as updated so far (assignments
made before the exception are kept). -/
def civicStep (transferTopic : Nat) (toCk : Nat → String) (nullAddress : String)
    (e : Entry) (log : Log) : Entry × Option String :=
  match log.topics[0]? with
  | none => (e, some indexErrorMsg)
  | some t0 =>
    if t0 = transferTopic then
      match log.topics[1]? with
      | none => (e, some indexErrorMsg)
      | some t1 =>
        if toCk (t1 % 2 ^ 160) = nullAddress then
          let e1 := dset e "is_minting_event" (.b true)
          let e2 := dset e1 "civic_log_processing_successful" (.b true)
          match log.topics[2]? with
          | none => (e2, some indexErrorMsg)
          | some t2 =>
            let e3 := dset e2 "recipient_address" (.s (toCk (t2 % 2 ^ 160)))
            match log.topics[3]? with
            | none => (e3, some indexErrorMsg)
            | some t3 => (dset e3 "token_id" (.n t3), none)
        else (e, none)
    else (e, none)

/-- The civic `for log in receipt["logs"]` loop; an exception aborts the rest
of the loop. -/
def civicLoop (tt : Nat) (toCk : Nat → String) (nullA : String) :
    Entry → List Log → Entry × Option String
  | e, [] => (e, none)
  | e, log :: rest =>
    match civicStep tt toCk nullA e log with
    | (e', none) => civicLoop tt toCk nullA e' rest
    | (e', some err) => (e', some err)

/-- `contract_address_from_config if contract_address_from_config else
tx.get('to')` (`src/main.py` line 99). -/
def resolveTargetAddress (contractAddressFromConfig : Option String)
    (txTo : Option String) : Option String :=
  if pyTruthy contractAddressFromConfig then contractAddressFromConfig else txTo


/-- The `analysis_mode == 'privado'` branch of `process_transaction_task`
(`src/main.py` lines 109-128), applied to the record `r1` built so far.
Note the `else` arm: the source executes
`result_entry["error"] = result_entry.get("error", "Privado decoding failed
or no input data")`, and since the `"error"` key is always present,
`dict.get` returns its current value and the default string is dead. -/
def privadoBranch (env : Env) (r1 : Entry) (input : Option (List Nat))
    (address : String) : Entry :=
  match env.decodeTransactionInput input address with
  | some (functionName, parameters) =>
    if parameters ≠ [] ∧
        "isOldStateGenesis" ∈ parameters.map Prod.fst ∧
        parameters.lookup "isOldStateGenesis" = some (.bool true) then
      dset (dset (dset (dset r1 "decoded_function" (.s functionName))
          "decoded_parameters" (.params parameters))
          "privado_decoding_successful" (.b true))
          "is_genesis_transition" (.b true)
    else
      dset (dset (dset r1 "decoded_function" (.s functionName))
          "decoded_parameters" (.params parameters))
          "privado_decoding_successful" (.b true)
  | none =>
    dset r1 "error" ((dget r1 "error").getD (.s "Privado decoding failed or no input data"))

/-- The `analysis_mode == 'civic'` branch of `process_transaction_task`
(`src/main.py` lines 131-151), applied to the record `r1` built so far.
As in the privado branch, the `"No minting event found in logs"` default of
the final `dict.get` is dead because the `"error"` key is always present. -/
def civicBranch (env : Env) (hexHash nullAddress : String) (r1 : Entry) : Entry :=
  match env.getReceiptLogs hexHash with
  | .error e => dset r1 "error" (.s ("Error processing event logs: " ++ e))
  | .ok logs =>
    match civicLoop env.transferTopic env.toChecksumAddress nullAddress r1 logs with
    | (r2, some err) => dset r2 "error" (.s ("Error processing event logs: " ++ err))
    | (r2, none) =>
      if ¬ fvalTruthy ((dget r2 "is_minting_event").getD .null) then
        dset r2 "error" ((dget r2 "error").getD (.s "No minting event found in logs"))
      else r2

/-- Shallow embedding of `process_transaction_task` (`src/main.py`
lines 28-161). -/
def processTransactionTask (env : Env) (hexHash : String)
    (contractAddressFromConfig : Option String) (nullAddress : String)
    (analysisMode : String) : Entry :=
  match env.getTransaction hexHash with
  | .error e =>
      dset (initialEntry hexHash) "error"
        (.s ("Unexpected error during transaction fetch or initial processing: " ++ e))
  | .ok none => dset (initialEntry hexHash) "error" (.s "Transaction not found")
  | .ok (some tx) =>
    match tx.blockNumber with
    | none =>
        dset (initialEntry hexHash) "error"
          (.s "Transaction is pending (no block number)")
    | some blockNumber =>
      match env.getBlockTimestamp blockNumber with
      | .error e =>
          dset (initialEntry hexHash) "error"
            (.s ("Error fetching block or timestamp: " ++ e))
      | .ok none =>
          dset (initialEntry hexHash) "error" (.s "Block found but no timestamp")
      | .ok (some ts) =>
        if ¬ pyTruthy (resolveTargetAddress contractAddressFromConfig tx.toAddr) then
          dset (dset (initialEntry hexHash) "timestamp" (.n ts)) "error"
            (.s "Contract address not available for processing in this mode")
        else
          if analysisMode = "privado" then
            privadoBranch env (dset (initialEntry hexHash) "timestamp" (.n ts)) tx.input
              ((resolveTargetAddress contractAddressFromConfig tx.toAddr).getD "")
          else if analysisMode = "civic" then
            civicBranch env hexHash nullAddress
              (dset (initialEntry hexHash) "timestamp" (.n ts))
          else
            dset (dset (initialEntry hexHash) "timestamp" (.n ts)) "error"
              (.s ("Unsupported analysis mode: " ++ analysisMode))

/-- The fallback record built when a future raises (`src/main.py`
lines 296-311). -/
def failedEntry (hexHash excMsg : String) : Entry :=
  [("transaction_hash", .s hexHash),
   ("timestamp", .null),
   ("decoded_function", .null),
   ("decoded_parameters", .null),
   ("is_genesis_transition", .b false),
   ("privado_decoding_successful", .b false),
   ("is_minting_event", .b false),
   ("recipient_address", .null),
   ("token_id", .null),
   ("civic_log_processing_successful", .b false),
   ("error", .s ("Task execution failed: " ++ excMsg))]

/-- The `as_completed` aggregation loop of `run_analytics` (`src/main.py`
lines 269-311): one future per submitted hash; a future either returns the
worker's record or raises (`crashed h = some msg`), in which case the fallback
record is appended instead.  `order` is the completion order of the futures:
any permutation of the submitted hashes (the worker count influences only
which permutation occurs, never the per-item results). -/
def runAggregate (env : Env) (contractAddress : Option String)
    (nullAddress : String) (analysisMode : String)
    (crashed : String → Option String) (order : List String) : List Entry :=
  order.map (fun h =>
    match crashed h with
    | some msg => failedEntry h msg
    | none => processTransactionTask env h contractAddress nullAddress analysisMode)

/-- The analysis modes accepted by `Config.__post_init__`
(`src/config.py` line 75). -/
def validAnalysisModes : List String := ["privado", "civic", "worldid"]

/-- `Config.__post_init__` mode validation (`src/config.py` lines 75-78): an
unknown mode is silently replaced by `privado` (the environment value was
already lower-cased when the field was loaded). -/
def postInitAnalysisMode (m : String) : String :=
  if m ∈ validAnalysisModes then m else "privado"

/-! ## Record predicates -/

/-- The key is present with a value other than `None`. -/
def nonNullVal : Option FVal → Bool
  | some .null => false
  | some _ => true
  | none => false

/-- Both mode-specific success flags of a record are `False`. -/
def successFlagsFalse (e : Entry) : Bool :=
  (dget e "privado_decoding_successful" == some (.b false)) &&
  (dget e "civic_log_processing_successful" == some (.b false))

/-- The record's `error` field holds a (non-null) string. -/
def errorNonNull (e : Entry) : Bool :=
  match dget e "error" with
  | some (.s _) => true
  | _ => false

/-- All classifier-written fields still hold their initial values. -/
def classifierFieldsInitial (e : Entry) : Bool :=
  (dget e "decoded_function" == some .null) &&
  (dget e "decoded_parameters" == some .null) &&
  (dget e "is_genesis_transition" == some (.b false)) &&
  (dget e "privado_decoding_successful" == some (.b false)) &&
  (dget e "is_minting_event" == some (.b false)) &&
  (dget e "recipient_address" == some .null) &&
  (dget e "token_id" == some .null) &&
  (dget e "civic_log_processing_successful" == some (.b false))

/-- Cross-field invariant of a result record (claim C10): a genesis transition
implies successful privado decoding; the mint flag and the civic success flag
agree; recipient and token id are non-null only on a mint. -/
def entryInvariant (e : Entry) : Bool :=
  (!(dget e "is_genesis_transition" == some (.b true)) ||
     (dget e "privado_decoding_successful" == some (.b true))) &&
  ((dget e "is_minting_event" == some (.b true)) ==
     (dget e "civic_log_processing_successful" == some (.b true))) &&
  (!(nonNullVal (dget e "recipient_address")) ||
     (dget e "is_minting_event" == some (.b true))) &&
  (!(nonNullVal (dget e "token_id")) ||
     (dget e "is_minting_event" == some (.b true)))

/-- The per-item fetch/pre-check stage fails for this hash: the transaction
fetch raises or returns nothing, the transaction is pending, the block
timestamp is unavailable, or no target address can be resolved (the "failing
fetches" of claim C1). -/
def fetchFails (env : Env) (contractAddressFromConfig : Option String)
    (h : String) : Bool :=
  match env.getTransaction h with
  | .error _ => true
  | .ok none => true
  | .ok (some tx) =>
    match tx.blockNumber with
    | none => true
    | some bn =>
      match env.getBlockTimestamp bn with
      | .error _ => true
      | .ok none => true
      | .ok (some _) => !(pyTruthy (resolveTargetAddress contractAddressFromConfig tx.toAddr))

/-- The condition under which the civic scan treats a log as a mint transfer:
its first topic equals the Transfer topic hash and the sender — the low-order
20 bytes of the second topic, checksummed — equals the configured null
address.  (No topic-count check is involved.) -/
def isMintMatch (tt : Nat) (ck : Nat → String) (na : String) (log : Log) : Bool :=
  match log.topics[0]?, log.topics[1]? with
  | some t0, some t1 => t0 == tt && ck (t1 % 2 ^ 160) == na
  | _, _ => false

/-- The mint whose fields the civic scan ends up reporting: the *last*
matching log of the receipt (each match overwrites the previous one;
the loop has no `break`). -/
def lastMintMatch (tt : Nat) (ck : Nat → String) (na : String) :
    List Log → Option Log
  | [] => none
  | log :: rest =>
    match lastMintMatch tt ck na rest with
    | some L => some L
    | none => if isMintMatch tt ck na log then some log else none

/-! ## Concrete test fixtures -/

/-- Checksum function of the concrete test environments: the decimal digits
of the value (injective, which is all the code's equality comparisons need). -/
def ckFn : Nat → String := Nat.repr

/-- A found, mined transaction used by the concrete environments. -/
def testTx : Tx := { toAddr := some "0xC", input := some [1, 2, 3], blockNumber := some 5 }

/-- A pending transaction (no block number). -/
def pendingTx : Tx := { toAddr := some "0xC", input := none, blockNumber := none }

/-- A mined transaction with no `to` address. -/
def noToTx : Tx := { toAddr := none, input := none, blockNumber := some 5 }

/-- Base concrete environment: the transaction is found and mined, its block
has timestamp 1000, the receipt fetch raises, the Transfer topic hash is 99,
and call data never decodes. -/
def baseEnv : Env :=
  { getTransaction := fun _ => .ok (some testTx),
    getBlockTimestamp := fun _ => .ok (some 1000),
    getReceiptLogs := fun _ => .error "receipt unavailable",
    transferTopic := 99,
    toChecksumAddress := ckFn,
    decodeTransactionInput := fun _ _ => none }

/-- Environment whose transaction lookup returns nothing. -/
def envTxAbsent : Env := { baseEnv with getTransaction := fun _ => .ok none }

/-- Environment whose transaction is pending. -/
def envPending : Env := { baseEnv with getTransaction := fun _ => .ok (some pendingTx) }

/-- Environment whose block has no timestamp. -/
def envNoTimestamp : Env := { baseEnv with getBlockTimestamp := fun _ => .ok none }

/-- Environment whose transaction has no `to` address. -/
def envNoAddress : Env := { baseEnv with getTransaction := fun _ => .ok (some noToTx) }

/-- Environment for the civic counterexample: the receipt holds two logs that
both carry the Transfer topic hash 99 and the null sender, with different
recipients (5 and 7) and token ids (100 and 200). -/
def c2Env : Env :=
  { baseEnv with getReceiptLogs := fun _ => .ok [⟨[99, 0, 5, 100]⟩, ⟨[99, 0, 7, 200]⟩] }

/-- Environment whose call data decodes to `transitState` with a boolean-true
`isOldStateGenesis` parameter. -/
def privadoOkEnv : Env :=
  { baseEnv with decodeTransactionInput :=
      fun _ _ => some ("transitState", [("isOldStateGenesis", .bool true), ("id", .int 7)]) }

/-- Environment for the pipeline witness: hash `h1` is not found, every other
hash resolves to `testTx`. -/
def c1Env : Env :=
  { baseEnv with getTransaction := fun h =>
      if h = "h1" then .ok none else .ok (some testTx) }

/-- Crash assignment for the pipeline witness: the future of hash `h2`
raises. -/
def c1Crashed : String → Option String :=
  fun h => if h = "h2" then some "boom" else none

/-! ## Value Codec (claim C4) — modelled from the spec -/

/-- Modelled from the spec: the tagged ABI type (spec §3 `AbiType`). -/
inductive AbiType where
  | uint (n : Nat)
  | int (n : Nat)
  | address
  | bool
  | bytesN (n : Nat)
  | bytes
  | string
  | array (t : AbiType)
  | fixedArray (t : AbiType) (k : Nat)
  | tuple (ts : List AbiType)

mutual
/-- Spec §3: a type is dynamic iff it is dynamic-bytes, string, dynamic-array,
or a tuple/fixed-array containing a dynamic element. -/
def isDynamic : AbiType → Bool
  | .bytes => true
  | .string => true
  | .array _ => true
  | .fixedArray t _ => isDynamic t
  | .tuple ts => anyDynamic ts
  | _ => false

/-- Some element of the list is dynamic. -/
def anyDynamic : List AbiType → Bool
  | [] => false
  | t :: ts => isDynamic t || anyDynamic ts
end

mutual
/-- Size in bytes of a parameter's contribution to its parent's head: 32 for
every scalar and for the offset slot of a dynamic type; a static fixed array
or tuple is laid out in place. -/
def staticSize : AbiType → Nat
  | .fixedArray t k => if isDynamic t then 32 else k * staticSize t
  | .tuple ts => if anyDynamic ts then 32 else sumStaticSize ts
  | _ => 32

/-- Total head size of a parameter sequence. -/
def sumStaticSize : List AbiType → Nat
  | [] => 0
  | t :: ts => staticSize t + sumStaticSize ts
end

mutual
/-- Well-formed ABI type: integer widths are whole bytes in 8..256, fixed
byte arrays hold 1..32 bytes, fixed arrays and tuples are non-empty. -/
def validType : AbiType → Bool
  | .uint n => decide (n % 8 = 0) && decide (0 < n) && decide (n ≤ 256)
  | .int n => decide (n % 8 = 0) && decide (0 < n) && decide (n ≤ 256)
  | .bytesN n => decide (0 < n) && decide (n ≤ 32)
  | .address => true
  | .bool => true
  | .bytes => true
  | .string => true
  | .array t => validType t
  | .fixedArray t k => validType t && decide (0 < k)
  | .tuple ts => !ts.isEmpty && validTypes ts

/-- All types of the list are well formed. -/
def validTypes : List AbiType → Bool
  | [] => true
  | t :: ts => validType t && validTypes ts
end

/-- Big-endian byte rendering of `n` in exactly `k` bytes (value mod 256^k). -/
def natToBytesBE : Nat → Nat → List Nat
  | 0, _ => []
  | k + 1, n => natToBytesBE k (n / 256) ++ [n % 256]

/-- Big-endian value of a byte list. -/
def bytesToNat (bs : List Nat) : Nat := bs.foldl (fun a b => a * 256 + b) 0

/-- One 32-byte ABI word holding `n` (mod 2^256), big-endian (left-padded). -/
def word (n : Nat) : List Nat := natToBytesBE 32 n

/-- Read the 32-byte word at the front of the buffer (none = truncated). -/
def readWord (bs : List Nat) : Option Nat :=
  if 32 ≤ bs.length then some (bytesToNat (bs.take 32)) else none

/-- Read the 32-byte word at offset `pos` of the frame. -/
def readWordAt (frame : List Nat) (pos : Nat) : Option Nat :=
  readWord (frame.drop pos)

/-- Zero padding bringing `len` bytes to the next 32-byte boundary. -/
def padLen (len : Nat) : Nat := (32 - len % 32) % 32

/-- Right-pad a byte sequence with zeros to a 32-byte boundary. -/
def padTo32 (bs : List Nat) : List Nat := bs ++ List.replicate (padLen bs.length) 0

/-- UTF-8 encoding of one Unicode scalar value (1 to 4 bytes). -/
def utf8EncodeChar (n : Nat) : List Nat :=
  if n < 0x80 then [n]
  else if n < 0x800 then [0xC0 + n / 64, 0x80 + n % 64]
  else if n < 0x10000 then
    [0xE0 + n / 4096, 0x80 + n / 64 % 64, 0x80 + n % 64]
  else [0xF0 + n / 262144, 0x80 + n / 4096 % 64, 0x80 + n / 64 % 64, 0x80 + n % 64]

/-- UTF-8 bytes of a string (the codec is self-contained, so the encoder is
spelled out rather than borrowed). -/
def utf8Encode (s : String) : List Nat :=
  s.data.foldr (fun c acc => utf8EncodeChar c.toNat ++ acc) []

mutual

/-- UTF-8 decoder: the scalar sequence, or none on malformed input (stray
continuations, overlong forms, surrogates, out-of-range and truncated
sequences are rejected — spec §4.2 `InvalidUtf8`). -/
def utf8DecodeChars : List Nat → Option (List Char)
  | [] => some []
  | b :: bs =>
    if b < 0x80 then (utf8DecodeChars bs).map (fun cs => Char.ofNat b :: cs)
    else if b < 0xC2 then none
    else if b < 0xE0 then utf8Dec2 b bs
    else if b < 0xF0 then utf8Dec3 b bs
    else if b < 0xF5 then utf8Dec4 b bs
    else none

/-- Continuation of a 2-byte sequence with lead byte `b`. -/
def utf8Dec2 (b : Nat) : List Nat → Option (List Char)
  | b1 :: bs1 =>
    if 0x80 ≤ b1 && b1 < 0xC0 then
      (utf8DecodeChars bs1).map
        (fun cs => Char.ofNat ((b - 0xC0) * 64 + (b1 - 0x80)) :: cs)
    else none
  | [] => none

/-- Continuation of a 3-byte sequence with lead byte `b` (overlong forms and
surrogates rejected). -/
def utf8Dec3 (b : Nat) : List Nat → Option (List Char)
  | b1 :: b2 :: bs2 =>
    if (0x80 ≤ b1 && b1 < 0xC0) && (0x80 ≤ b2 && b2 < 0xC0)
        && !(b == 0xE0 && b1 < 0xA0) && !(b == 0xED && 0xA0 ≤ b1) then
      (utf8DecodeChars bs2).map
        (fun cs =>
          Char.ofNat ((b - 0xE0) * 4096 + (b1 - 0x80) * 64 + (b2 - 0x80)) :: cs)
    else none
  | _ => none

/-- Continuation of a 4-byte sequence with lead byte `b` (overlong and
out-of-range forms rejected). -/
def utf8Dec4 (b : Nat) : List Nat → Option (List Char)
  | b1 :: b2 :: b3 :: bs3 =>
    if (0x80 ≤ b1 && b1 < 0xC0) && (0x80 ≤ b2 && b2 < 0xC0)
        && (0x80 ≤ b3 && b3 < 0xC0)
        && !(b == 0xF0 && b1 < 0x90) && !(b == 0xF4 && 0x90 ≤ b1) then
      (utf8DecodeChars bs3).map
        (fun cs =>
          Char.ofNat ((b - 0xF0) * 262144 + (b1 - 0x80) * 4096
            + (b2 - 0x80) * 64 + (b3 - 0x80)) :: cs)
    else none
  | _ => none
end

/-- UTF-8 decoding of a byte sequence into a string. -/
def utf8Decode (bs : List Nat) : Option String :=
  match utf8DecodeChars bs with
  | some cs => some (String.mk cs)
  | none => none

mutual
/-- The value is a well-typed, in-range inhabitant of the ABI type. -/
def inRange : AbiType → Value → Bool
  | .uint n, .int i => decide (0 ≤ i) && decide (i < 2 ^ n)
  | .int n, .int i => decide (-(2 ^ (n - 1) : Int) ≤ i) && decide (i < 2 ^ (n - 1))
  | .address, .addr a => decide (a < 2 ^ 160)
  | .bool, .bool _ => true
  | .bytesN n, .bytes bs => decide (bs.length = n) && bs.all (fun b => decide (b < 256))
  | .bytes, .bytes bs => bs.all (fun b => decide (b < 256))
  | .string, .str _ => true
  | .array t, .list vs => inRangeList t vs
  | .fixedArray t k, .list vs => decide (vs.length = k) && inRangeList t vs
  | .tuple ts, .list vs => inRangeSeq ts vs
  | _, _ => false

/-- Every element of the list is in range at the element type. -/
def inRangeList : AbiType → List Value → Bool
  | _, [] => true
  | t, v :: vs => inRange t v && inRangeList t vs

/-- The values match the types pointwise (and the lengths agree). -/
def inRangeSeq : List AbiType → List Value → Bool
  | [], [] => true
  | t :: ts, v :: vs => inRange t v && inRangeSeq ts vs
  | _, _ => false
end

mutual
/-- Modelled from the spec: the Value Codec's encoder (spec §4.2).  In-place
encoding of a static value / tail encoding of a dynamic value: static scalars
are one 32-byte word (left-padded integers/bool/address, right-padded fixed
bytes); dynamic bytes/string are a length word plus zero-padded payload; a
dynamic array is a count word plus the head-tail encoding of its elements;
fixed arrays and tuples are the head-tail encoding of their elements. -/
def enc : AbiType → Value → List Nat
  | .uint _, .int i => word i.toNat
  | .int _, .int i => word (i % (2 ^ 256 : Int)).toNat
  | .address, .addr a => word a
  | .bool, .bool b => word (if b then 1 else 0)
  | .bytesN n, .bytes bs => bs ++ List.replicate (32 - n) 0
  | .bytes, .bytes bs => word bs.length ++ padTo32 bs
  | .string, .str s => word (utf8Encode s).length ++ padTo32 (utf8Encode s)
  | .array t, .list vs =>
      word vs.length ++
        (encSeqAux (List.replicate vs.length t) vs
            (sumStaticSize (List.replicate vs.length t))).1 ++
        (encSeqAux (List.replicate vs.length t) vs
            (sumStaticSize (List.replicate vs.length t))).2
  | .fixedArray t _, .list vs =>
      (encSeqAux (List.replicate vs.length t) vs
          (sumStaticSize (List.replicate vs.length t))).1 ++
      (encSeqAux (List.replicate vs.length t) vs
          (sumStaticSize (List.replicate vs.length t))).2
  | .tuple ts, .list vs =>
      (encSeqAux ts vs (sumStaticSize ts)).1 ++ (encSeqAux ts vs (sumStaticSize ts)).2
  | _, _ => []

/-- Head and tail of the head-tail sequence encoding (spec §4.2): static
parameters in place in the head, each dynamic parameter as a head offset slot
pointing into the tail; `tb` is the offset (relative to the head start) at
which the next tail byte will land. -/
def encSeqAux : List AbiType → List Value → Nat → List Nat × List Nat
  | t :: ts, v :: vs, tb =>
    if isDynamic t then
      (word tb ++ (encSeqAux ts vs (tb + (enc t v).length)).1,
       enc t v ++ (encSeqAux ts vs (tb + (enc t v).length)).2)
    else
      (enc t v ++ (encSeqAux ts vs tb).1, (encSeqAux ts vs tb).2)
  | _, _, _ => ([], [])
end

/-- Modelled from the spec: the head-tail encoding of a parameter sequence
(the head followed by the tail region). -/
def encSeq (ts : List AbiType) (vs : List Value) : List Nat :=
  (encSeqAux ts vs (sumStaticSize ts)).1 ++ (encSeqAux ts vs (sumStaticSize ts)).2

mutual
/-- Modelled from the spec: the Value Codec's decoder (spec §4.2).  Decode
one value of type `t` from the front of `buf` (for a dynamic type, `buf` is
its tail frame); bytes beyond the value's extent are ignored, reads past the
buffer fail (`TruncatedInput`). -/
def dec : AbiType → List Nat → Option Value
  | .uint n, buf =>
    match readWord buf with
    | some w => some (.int (w % 2 ^ n : Nat))
    | none => none
  | .int n, buf =>
    match readWord buf with
    | some w =>
      some (.int (if w % 2 ^ n < 2 ^ (n - 1) then ((w % 2 ^ n : Nat) : Int)
        else ((w % 2 ^ n : Nat) : Int) - 2 ^ n))
    | none => none
  | .address, buf =>
    match readWord buf with
    | some w => some (.addr (w % 2 ^ 160))
    | none => none
  | .bool, buf =>
    match readWord buf with
    | some w => some (.bool (w != 0))
    | none => none
  | .bytesN n, buf =>
    match readWord buf with
    | some _ => some (.bytes (buf.take n))
    | none => none
  | .bytes, buf =>
    match readWord buf with
    | some len =>
      if len ≤ (buf.drop 32).length then some (.bytes ((buf.drop 32).take len))
      else none
    | none => none
  | .string, buf =>
    match readWord buf with
    | some len =>
      if len ≤ (buf.drop 32).length then
        match utf8Decode ((buf.drop 32).take len) with
        | some s => some (.str s)
        | none => none
      else none
    | none => none
  | .array t, buf =>
    match readWord buf with
    | some k =>
      match decList t k (buf.drop 32) 0 with
      | some vs => some (.list vs)
      | none => none
    | none => none
  | .fixedArray t k, buf =>
    match decList t k buf 0 with
    | some vs => some (.list vs)
    | none => none
  | .tuple ts, buf =>
    match decSeq ts buf 0 with
    | some vs => some (.list vs)
    | none => none
termination_by t buf => (3 * sizeOf t, 0)

/-- Decode `k` consecutive elements of type `t` inside the frame, walking the
head from `pos`: offset slots for dynamic `t`, in-place values for static
`t` (spec §4.2, dynamic-array rule). -/
def decList (t : AbiType) (k : Nat) (frame : List Nat) (pos : Nat) :
    Option (List Value) :=
  match k with
  | 0 => some []
  | k' + 1 =>
    if isDynamic t then
      match readWordAt frame pos with
      | some off =>
        match dec t (frame.drop off) with
        | some v =>
          match decList t k' frame (pos + 32) with
          | some vs => some (v :: vs)
          | none => none
        | none => none
      | none => none
    else
      match dec t (frame.drop pos) with
      | some v =>
        match decList t k' frame (pos + staticSize t) with
        | some vs => some (v :: vs)
        | none => none
      | none => none
termination_by (3 * sizeOf t + 1, k)

/-- Decode a heterogeneous parameter sequence inside the frame, walking the
head from `pos` (spec §4.2, head-tail rule). -/
def decSeq : List AbiType → List Nat → Nat → Option (List Value)
  | [], _, _ => some []
  | t :: ts, frame, pos =>
    if isDynamic t then
      match readWordAt frame pos with
      | some off =>
        match dec t (frame.drop off) with
        | some v =>
          match decSeq ts frame (pos + 32) with
          | some vs => some (v :: vs)
          | none => none
        | none => none
      | none => none
    else
      match dec t (frame.drop pos) with
      | some v =>
        match decSeq ts frame (pos + staticSize t) with
        | some vs => some (v :: vs)
        | none => none
      | none => none
termination_by ts frame pos => (3 * sizeOf ts + 1, 0)
end

/-- Modelled from the spec: encoding of a top-level parameter list (the Call
Decoder hands the post-selector bytes to this layout). -/
def abiEncode (ts : List AbiType) (vs : List Value) : List Nat := encSeq ts vs

/-- Modelled from the spec: decoding of a top-level parameter list. -/
def abiDecode (ts : List AbiType) (buf : List Nat) : Option (List Value) :=
  decSeq ts buf 0


/-! ## Dictionary lemmas -/

theorem dget_dset_self (e : Entry) (k : String) (v : FVal) :
    dget (dset e k v) k = some v := by
  induction e with
  | nil => simp [dset, dget]
  | cons kv rest ih =>
    obtain ⟨k0, v0⟩ := kv
    by_cases h0 : k0 = k <;> simp [dset, dget, h0, ih]

theorem dget_dset_ne (e : Entry) {k k' : String} (v : FVal) (h : k ≠ k') :
    dget (dset e k v) k' = dget e k' := by
  induction e with
  | nil => simp [dset, dget, h]
  | cons kv rest ih =>
    obtain ⟨k0, v0⟩ := kv
    by_cases h0 : k0 = k
    · subst h0
      simp [dset, dget, h]
    · by_cases h1 : k0 = k'
      · subst h1
        simp [dset, dget, h0]
      · simp [dset, dget, h0, h1, ih]

theorem entryKeys_dset_of_mem {e : Entry} {k : String} (v : FVal)
    (h : k ∈ entryKeys e) : entryKeys (dset e k v) = entryKeys e := by
  induction e with
  | nil => simp [entryKeys] at h
  | cons kv rest ih =>
    obtain ⟨k0, v0⟩ := kv
    by_cases h0 : k0 = k
    · simp [dset, entryKeys, h0]
    · have hmem : k ∈ entryKeys rest := by
        simp only [entryKeys, List.map_cons, List.mem_cons] at h
        rcases h with h | h
        · exact absurd h.symm h0
        · exact h
      have hrec := ih hmem
      simp only [entryKeys] at hrec
      simp [dset, entryKeys, h0, hrec]

theorem entryKeys_dset_resultKeys {e : Entry} {k : String} (v : FVal)
    (hk : k ∈ resultKeys) (h : entryKeys e = resultKeys) :
    entryKeys (dset e k v) = resultKeys := by
  rw [entryKeys_dset_of_mem v (h ▸ hk), h]

theorem entryKeys_initialEntry (hexHash : String) :
    entryKeys (initialEntry hexHash) = resultKeys := by
  simp [initialEntry, entryKeys, resultKeys]

theorem entryKeys_failedEntry (hexHash excMsg : String) :
    entryKeys (failedEntry hexHash excMsg) = resultKeys := by
  simp [failedEntry, entryKeys, resultKeys]

/-! ## Key preservation through the civic loop and the task -/

theorem entryKeys_civicStep (tt : Nat) (ck : Nat → String) (na : String)
    (e : Entry) (log : Log) (h : entryKeys e = resultKeys) :
    entryKeys (civicStep tt ck na e log).1 = resultKeys := by
  unfold civicStep
  split
  · exact h
  · split
    · split
      · exact h
      · split
        · split
          · repeat' apply entryKeys_dset_resultKeys _ (by decide)
            exact h
          · split
            · repeat' apply entryKeys_dset_resultKeys _ (by decide)
              exact h
            · repeat' apply entryKeys_dset_resultKeys _ (by decide)
              exact h
        · exact h
    · exact h

theorem entryKeys_civicLoop (tt : Nat) (ck : Nat → String) (na : String)
    (e : Entry) (logs : List Log) (h : entryKeys e = resultKeys) :
    entryKeys (civicLoop tt ck na e logs).1 = resultKeys := by
  induction logs generalizing e with
  | nil => exact h
  | cons log rest ih =>
    have hstep := entryKeys_civicStep tt ck na e log h
    unfold civicLoop
    split
    · next heq =>
        rw [heq] at hstep
        exact ih _ hstep
    · next heq =>
        rw [heq] at hstep
        exact hstep

theorem entryKeys_privadoBranch (env : Env) (r1 : Entry)
    (input : Option (List Nat)) (address : String)
    (h : entryKeys r1 = resultKeys) :
    entryKeys (privadoBranch env r1 input address) = resultKeys := by
  unfold privadoBranch
  split
  · split
    · repeat' apply entryKeys_dset_resultKeys _ (by decide)
      exact h
    · repeat' apply entryKeys_dset_resultKeys _ (by decide)
      exact h
  · exact entryKeys_dset_resultKeys _ (by decide) h

theorem entryKeys_civicBranch (env : Env) (hexHash na : String) (r1 : Entry)
    (h : entryKeys r1 = resultKeys) :
    entryKeys (civicBranch env hexHash na r1) = resultKeys := by
  unfold civicBranch
  split
  · exact entryKeys_dset_resultKeys _ (by decide) h
  · next logs heq0 =>
    have hloop := entryKeys_civicLoop env.transferTopic env.toChecksumAddress na r1 logs h
    split
    · next heq =>
        rw [heq] at hloop
        exact entryKeys_dset_resultKeys _ (by decide) hloop
    · next heq =>
        rw [heq] at hloop
        split
        · exact entryKeys_dset_resultKeys _ (by decide) hloop
        · exact hloop

theorem processTransactionTask_keys (env : Env) (hexHash : String)
    (cfgAddr : Option String) (nullAddress analysisMode : String) :
    entryKeys (processTransactionTask env hexHash cfgAddr nullAddress analysisMode)
      = resultKeys := by
  have hinit := entryKeys_initialEntry hexHash
  unfold processTransactionTask
  split
  · exact entryKeys_dset_resultKeys _ (by decide) hinit
  · exact entryKeys_dset_resultKeys _ (by decide) hinit
  · split
    · exact entryKeys_dset_resultKeys _ (by decide) hinit
    · split
      · exact entryKeys_dset_resultKeys _ (by decide) hinit
      · exact entryKeys_dset_resultKeys _ (by decide) hinit
      · split
        · repeat' apply entryKeys_dset_resultKeys _ (by decide)
          exact hinit
        · split
          · apply entryKeys_privadoBranch
            repeat' apply entryKeys_dset_resultKeys _ (by decide)
            exact hinit
          · split
            · apply entryKeys_civicBranch
              repeat' apply entryKeys_dset_resultKeys _ (by decide)
              exact hinit
            · repeat' apply entryKeys_dset_resultKeys _ (by decide)
              exact hinit

/-! ## Branch characterisations of `process_transaction_task` -/

theorem processTask_fetchError (env : Env) (hexHash : String)
    (cfgAddr : Option String) (na mode e : String)
    (h : env.getTransaction hexHash = .error e) :
    processTransactionTask env hexHash cfgAddr na mode =
      dset (initialEntry hexHash) "error"
        (.s ("Unexpected error during transaction fetch or initial processing: " ++ e)) := by
  unfold processTransactionTask
  rw [h]

theorem processTask_txNotFound (env : Env) (hexHash : String)
    (cfgAddr : Option String) (na mode : String)
    (h : env.getTransaction hexHash = .ok none) :
    processTransactionTask env hexHash cfgAddr na mode =
      dset (initialEntry hexHash) "error" (.s "Transaction not found") := by
  unfold processTransactionTask
  rw [h]

theorem processTask_pending (env : Env) (hexHash : String)
    (cfgAddr : Option String) (na mode : String) (tx : Tx)
    (h : env.getTransaction hexHash = .ok (some tx))
    (hbn : tx.blockNumber = none) :
    processTransactionTask env hexHash cfgAddr na mode =
      dset (initialEntry hexHash) "error"
        (.s "Transaction is pending (no block number)") := by
  unfold processTransactionTask
  simp only [h, hbn]

theorem processTask_blockError (env : Env) (hexHash : String)
    (cfgAddr : Option String) (na mode : String) (tx : Tx) (bn : Nat) (e : String)
    (h : env.getTransaction hexHash = .ok (some tx))
    (hbn : tx.blockNumber = some bn)
    (hts : env.getBlockTimestamp bn = .error e) :
    processTransactionTask env hexHash cfgAddr na mode =
      dset (initialEntry hexHash) "error"
        (.s ("Error fetching block or timestamp: " ++ e)) := by
  unfold processTransactionTask
  simp only [h, hbn, hts]

theorem processTask_noTimestamp (env : Env) (hexHash : String)
    (cfgAddr : Option String) (na mode : String) (tx : Tx) (bn : Nat)
    (h : env.getTransaction hexHash = .ok (some tx))
    (hbn : tx.blockNumber = some bn)
    (hts : env.getBlockTimestamp bn = .ok none) :
    processTransactionTask env hexHash cfgAddr na mode =
      dset (initialEntry hexHash) "error" (.s "Block found but no timestamp") := by
  unfold processTransactionTask
  simp only [h, hbn, hts]

theorem processTask_noAddress (env : Env) (hexHash : String)
    (cfgAddr : Option String) (na mode : String) (tx : Tx) (bn ts : Nat)
    (h : env.getTransaction hexHash = .ok (some tx))
    (hbn : tx.blockNumber = some bn)
    (hts : env.getBlockTimestamp bn = .ok (some ts))
    (haddr : pyTruthy (resolveTargetAddress cfgAddr tx.toAddr) = false) :
    processTransactionTask env hexHash cfgAddr na mode =
      dset (dset (initialEntry hexHash) "timestamp" (.n ts)) "error"
        (.s "Contract address not available for processing in this mode") := by
  unfold processTransactionTask
  simp only [h, hbn, hts]
  simp [haddr]

theorem processTask_privado (env : Env) (hexHash : String)
    (cfgAddr : Option String) (na : String) (tx : Tx) (bn ts : Nat)
    (h : env.getTransaction hexHash = .ok (some tx))
    (hbn : tx.blockNumber = some bn)
    (hts : env.getBlockTimestamp bn = .ok (some ts))
    (haddr : pyTruthy (resolveTargetAddress cfgAddr tx.toAddr) = true) :
    processTransactionTask env hexHash cfgAddr na "privado" =
      privadoBranch env (dset (initialEntry hexHash) "timestamp" (.n ts)) tx.input
        ((resolveTargetAddress cfgAddr tx.toAddr).getD "") := by
  unfold processTransactionTask
  simp only [h, hbn, hts]
  simp [haddr]

theorem processTask_civic (env : Env) (hexHash : String)
    (cfgAddr : Option String) (na : String) (tx : Tx) (bn ts : Nat)
    (h : env.getTransaction hexHash = .ok (some tx))
    (hbn : tx.blockNumber = some bn)
    (hts : env.getBlockTimestamp bn = .ok (some ts))
    (haddr : pyTruthy (resolveTargetAddress cfgAddr tx.toAddr) = true) :
    processTransactionTask env hexHash cfgAddr na "civic" =
      civicBranch env hexHash na (dset (initialEntry hexHash) "timestamp" (.n ts)) := by
  unfold processTransactionTask
  simp only [h, hbn, hts]
  simp [haddr]

theorem processTask_unsupportedMode (env : Env) (hexHash : String)
    (cfgAddr : Option String) (na mode : String) (tx : Tx) (bn ts : Nat)
    (h : env.getTransaction hexHash = .ok (some tx))
    (hbn : tx.blockNumber = some bn)
    (hts : env.getBlockTimestamp bn = .ok (some ts))
    (haddr : pyTruthy (resolveTargetAddress cfgAddr tx.toAddr) = true)
    (hm1 : mode ≠ "privado") (hm2 : mode ≠ "civic") :
    processTransactionTask env hexHash cfgAddr na mode =
      dset (dset (initialEntry hexHash) "timestamp" (.n ts)) "error"
        (.s ("Unsupported analysis mode: " ++ mode)) := by
  unfold processTransactionTask
  simp only [h, hbn, hts]
  simp [haddr, hm1, hm2]

/-! ## Invariant preservation (claim C10) -/

theorem entryInvariant_dset_other {e : Entry} (v : FVal) {k : String}
    (hk : k ∈ ["transaction_hash", "timestamp", "decoded_function",
               "decoded_parameters", "error"]) :
    entryInvariant (dset e k v) = entryInvariant e := by
  fin_cases hk <;>
    simp [entryInvariant, dget_dset_ne]

theorem entryInvariant_initialEntry (hexHash : String) :
    entryInvariant (initialEntry hexHash) = true := by
  simp [entryInvariant, initialEntry, dget, nonNullVal]

theorem entryInvariant_civicStep (tt : Nat) (ck : Nat → String) (na : String)
    (e : Entry) (log : Log) (h : entryInvariant e = true) :
    entryInvariant (civicStep tt ck na e log).1 = true := by
  unfold civicStep
  split
  · exact h
  · split
    · split
      · exact h
      · split
        · split
          · simp [entryInvariant, dget_dset_ne, dget_dset_self, nonNullVal] at h ⊢
            tauto
          · split
            · simp [entryInvariant, dget_dset_ne, dget_dset_self, nonNullVal] at h ⊢
              tauto
            · simp [entryInvariant, dget_dset_ne, dget_dset_self, nonNullVal] at h ⊢
              tauto
        · exact h
    · exact h

theorem entryInvariant_civicLoop (tt : Nat) (ck : Nat → String) (na : String)
    (e : Entry) (logs : List Log) (h : entryInvariant e = true) :
    entryInvariant (civicLoop tt ck na e logs).1 = true := by
  induction logs generalizing e with
  | nil => exact h
  | cons log rest ih =>
    have hstep := entryInvariant_civicStep tt ck na e log h
    unfold civicLoop
    split
    · next heq =>
        rw [heq] at hstep
        exact ih _ hstep
    · next heq =>
        rw [heq] at hstep
        exact hstep

theorem entryInvariant_privadoBranch (env : Env) (r1 : Entry)
    (input : Option (List Nat)) (address : String)
    (h : entryInvariant r1 = true) :
    entryInvariant (privadoBranch env r1 input address) = true := by
  unfold privadoBranch
  split
  · split
    · simp [entryInvariant, dget_dset_ne, dget_dset_self, nonNullVal] at h ⊢
      tauto
    · simp [entryInvariant, dget_dset_ne, dget_dset_self, nonNullVal] at h ⊢
      tauto
  · rw [entryInvariant_dset_other _ (by decide)]
    exact h

theorem entryInvariant_civicBranch (env : Env) (hexHash na : String)
    (r1 : Entry) (h : entryInvariant r1 = true) :
    entryInvariant (civicBranch env hexHash na r1) = true := by
  unfold civicBranch
  split
  · rw [entryInvariant_dset_other _ (by decide)]
    exact h
  · next logs heq0 =>
    have hloop := entryInvariant_civicLoop env.transferTopic
      env.toChecksumAddress na r1 logs h
    split
    · next heq =>
        rw [heq] at hloop
        rw [entryInvariant_dset_other _ (by decide)]
        exact hloop
    · next heq =>
        rw [heq] at hloop
        split
        · rw [entryInvariant_dset_other _ (by decide)]
          exact hloop
        · exact hloop

theorem processTransactionTask_invariant (env : Env) (hexHash : String)
    (cfgAddr : Option String) (nullAddress analysisMode : String) :
    entryInvariant
      (processTransactionTask env hexHash cfgAddr nullAddress analysisMode)
      = true := by
  have hinit := entryInvariant_initialEntry hexHash
  have hts : ∀ v, entryInvariant (dset (initialEntry hexHash) "timestamp" v) = true :=
    fun v => by rw [entryInvariant_dset_other _ (by decide)]; exact hinit
  unfold processTransactionTask
  split
  · rw [entryInvariant_dset_other _ (by decide)]; exact hinit
  · rw [entryInvariant_dset_other _ (by decide)]; exact hinit
  · split
    · rw [entryInvariant_dset_other _ (by decide)]; exact hinit
    · split
      · rw [entryInvariant_dset_other _ (by decide)]; exact hinit
      · rw [entryInvariant_dset_other _ (by decide)]; exact hinit
      · split
        · rw [entryInvariant_dset_other _ (by decide)]; exact hts _
        · split
          · exact entryInvariant_privadoBranch _ _ _ _ (hts _)
          · split
            · exact entryInvariant_civicBranch _ _ _ _ (hts _)
            · rw [entryInvariant_dset_other _ (by decide)]; exact hts _

/-! ## Civic scan characterisation (claims C2, C3) -/

theorem civicStep_skip (tt : Nat) (ck : Nat → String) (na : String)
    (e : Entry) (log : Log) (t0 : Nat)
    (h0 : log.topics[0]? = some t0) (hne : t0 ≠ tt) :
    civicStep tt ck na e log = (e, none) := by
  unfold civicStep
  simp only [h0]
  rw [if_neg hne]

theorem civicStep_notNull (tt : Nat) (ck : Nat → String) (na : String)
    (e : Entry) (log : Log) (t1 : Nat)
    (h0 : log.topics[0]? = some tt) (h1 : log.topics[1]? = some t1)
    (hna : ck (t1 % 2 ^ 160) ≠ na) :
    civicStep tt ck na e log = (e, none) := by
  unfold civicStep
  simp only [h0, h1]
  rw [if_pos trivial, if_neg hna]

theorem civicStep_match (tt : Nat) (ck : Nat → String) (na : String)
    (e : Entry) (log : Log) (t1 t2 t3 : Nat)
    (h0 : log.topics[0]? = some tt) (h1 : log.topics[1]? = some t1)
    (hna : ck (t1 % 2 ^ 160) = na)
    (h2 : log.topics[2]? = some t2) (h3 : log.topics[3]? = some t3) :
    civicStep tt ck na e log =
      (dset (dset (dset (dset e "is_minting_event" (.b true))
        "civic_log_processing_successful" (.b true))
        "recipient_address" (.s (ck (t2 % 2 ^ 160))))
        "token_id" (.n t3), none) := by
  unfold civicStep
  simp only [h0, h1, h2, h3]
  rw [if_pos trivial, if_pos hna]

theorem civicStep_shortMatch (tt : Nat) (ck : Nat → String) (na : String)
    (e : Entry) (log : Log)
    (h0 : log.topics[0]? = some tt) (h1 : log.topics[1]? = none) :
    civicStep tt ck na e log = (e, some indexErrorMsg) := by
  unfold civicStep
  simp only [h0, h1]
  rw [if_pos trivial]

theorem civicStep_truncatedMatch (tt : Nat) (ck : Nat → String) (na : String)
    (e : Entry) (log : Log) (t1 t2 : Nat)
    (h0 : log.topics[0]? = some tt) (h1 : log.topics[1]? = some t1)
    (hna : ck (t1 % 2 ^ 160) = na)
    (h2 : log.topics[2]? = some t2) (h3 : log.topics[3]? = none) :
    civicStep tt ck na e log =
      (dset (dset (dset e "is_minting_event" (.b true))
        "civic_log_processing_successful" (.b true))
        "recipient_address" (.s (ck (t2 % 2 ^ 160))), some indexErrorMsg) := by
  unfold civicStep
  simp only [h0, h1, h2, h3]
  rw [if_pos trivial, if_pos hna]

theorem lastMintMatch_eq_none (tt : Nat) (ck : Nat → String) (na : String)
    (logs : List Log) :
    lastMintMatch tt ck na logs = none ↔
      ∀ log ∈ logs, isMintMatch tt ck na log = false := by
  induction logs with
  | nil => simp [lastMintMatch]
  | cons log rest ih =>
    unfold lastMintMatch
    constructor
    · intro h
      split at h
      · exact absurd h (by simp)
      · next hrest =>
          intro l hl
          rcases List.mem_cons.mp hl with rfl | hl
          · by_contra hb
            simp [eq_true_of_ne_false hb] at h
          · exact (ih.mp hrest) l hl
    · intro h
      have hrest : lastMintMatch tt ck na rest = none :=
        ih.mpr (fun l hl => h l (List.mem_cons_of_mem _ hl))
      rw [hrest]
      simp [h log (List.mem_cons_self _ _)]

theorem listGetD_eq_getElem? (l : List Nat) (n d : Nat) :
    l.getD n d = (l[n]?).getD d := by
  simp [List.getD]

theorem civicLoop_no_match (tt : Nat) (ck : Nat → String) (na : String)
    (e : Entry) (logs : List Log)
    (hwf : ∀ log ∈ logs, 2 ≤ log.topics.length)
    (hnm : ∀ log ∈ logs, isMintMatch tt ck na log = false) :
    civicLoop tt ck na e logs = (e, none) := by
  induction logs generalizing e with
  | nil => rfl
  | cons log rest ih =>
    have hlen := hwf log (List.mem_cons_self _ _)
    have h0lt : 0 < log.topics.length := by omega
    have h1lt : 1 < log.topics.length := by omega
    have h0 : log.topics[0]? = some log.topics[0] := List.getElem?_eq_getElem h0lt
    have h1 : log.topics[1]? = some log.topics[1] := List.getElem?_eq_getElem h1lt
    have hm := hnm log (List.mem_cons_self _ _)
    have hrest := fun l hl => hnm l (List.mem_cons_of_mem _ hl)
    have hwrest := fun l hl => hwf l (List.mem_cons_of_mem _ hl)
    by_cases ht : log.topics[0] = tt
    · rw [ht] at h0
      simp only [isMintMatch, h0, h1, beq_self_eq_true, Bool.true_and,
        beq_eq_false_iff_ne] at hm
      unfold civicLoop
      rw [civicStep_notNull tt ck na e log _ h0 h1 hm]
      exact ih e hwrest hrest
    · unfold civicLoop
      rw [civicStep_skip tt ck na e log _ h0 ht]
      exact ih e hwrest hrest

theorem civicLoop_lastMatch (tt : Nat) (ck : Nat → String) (na : String)
    (e : Entry) (logs : List Log) (L : Log)
    (hwf : ∀ log ∈ logs, 4 ≤ log.topics.length)
    (hlast : lastMintMatch tt ck na logs = some L) :
    (civicLoop tt ck na e logs).2 = none ∧
    dget (civicLoop tt ck na e logs).1 "is_minting_event" = some (.b true) ∧
    dget (civicLoop tt ck na e logs).1 "civic_log_processing_successful"
      = some (.b true) ∧
    dget (civicLoop tt ck na e logs).1 "recipient_address"
      = some (.s (ck (L.topics.getD 2 0 % 2 ^ 160))) ∧
    dget (civicLoop tt ck na e logs).1 "token_id"
      = some (.n (L.topics.getD 3 0)) := by
  induction logs generalizing e with
  | nil => simp [lastMintMatch] at hlast
  | cons log rest ih =>
    have hlen := hwf log (List.mem_cons_self _ _)
    have h0lt : 0 < log.topics.length := by omega
    have h1lt : 1 < log.topics.length := by omega
    have h2lt : 2 < log.topics.length := by omega
    have h3lt : 3 < log.topics.length := by omega
    have h0 : log.topics[0]? = some log.topics[0] := List.getElem?_eq_getElem h0lt
    have h1 : log.topics[1]? = some log.topics[1] := List.getElem?_eq_getElem h1lt
    have h2 : log.topics[2]? = some log.topics[2] := List.getElem?_eq_getElem h2lt
    have h3 : log.topics[3]? = some log.topics[3] := List.getElem?_eq_getElem h3lt
    have hwrest := fun l hl => hwf l (List.mem_cons_of_mem _ hl)
    by_cases hm : isMintMatch tt ck na log = true
    · have hm' := hm
      simp only [isMintMatch, h0, h1, Bool.and_eq_true, beq_iff_eq] at hm'
      obtain ⟨ht, hna⟩ := hm'
      rw [ht] at h0
      unfold civicLoop
      rw [civicStep_match tt ck na e log _ _ _ h0 h1 hna h2 h3]
      cases hrest : lastMintMatch tt ck na rest with
      | some Lr =>
        have hL : Lr = L := by
          unfold lastMintMatch at hlast
          cases rest with
          | nil => simp [lastMintMatch] at hrest
          | cons b bs =>
            rw [hrest] at hlast
            exact Option.some.inj hlast
        subst hL
        exact ih _ hwrest hrest
      | none =>
        have hL : log = L := by
          unfold lastMintMatch at hlast
          cases rest with
          | nil => simp [lastMintMatch, hm] at hlast; exact hlast
          | cons b bs =>
            rw [hrest] at hlast
            simp [hm] at hlast
            exact hlast
        have hnone := fun (ee : Entry) => civicLoop_no_match tt ck na ee rest
          (fun l hl => by have := hwrest l hl; omega)
          ((lastMintMatch_eq_none tt ck na rest).mp hrest)
        subst hL
        simp only [hnone]
        refine ⟨trivial, ?_, ?_, ?_, ?_⟩ <;>
          simp [dget_dset_ne, dget_dset_self, listGetD_eq_getElem?, h2, h3]
    · have hmf : isMintMatch tt ck na log = false := by
        simpa using hm
      have hlast' : lastMintMatch tt ck na rest = some L := by
        unfold lastMintMatch at hlast
        cases hrest : lastMintMatch tt ck na rest with
        | some Lr => rw [hrest] at hlast; exact hlast
        | none => rw [hrest] at hlast; simp [hmf] at hlast
      by_cases ht : log.topics[0] = tt
      · rw [ht] at h0
        have hna : ck (log.topics[1] % 2 ^ 160) ≠ na := by
          simp only [isMintMatch, h0, h1, beq_self_eq_true, Bool.true_and,
            beq_eq_false_iff_ne] at hmf
          exact hmf
        unfold civicLoop
        rw [civicStep_notNull tt ck na e log _ h0 h1 hna]
        exact ih e hwrest hlast'
      · unfold civicLoop
        rw [civicStep_skip tt ck na e log _ h0 ht]
        exact ih e hwrest hlast'

/-! ## Field preservation through the branches -/

theorem dget_civicStep_other (tt : Nat) (ck : Nat → String) (na : String)
    (e : Entry) (log : Log) (k : String)
    (h1 : k ≠ "is_minting_event") (h2 : k ≠ "civic_log_processing_successful")
    (h3 : k ≠ "recipient_address") (h4 : k ≠ "token_id") :
    dget (civicStep tt ck na e log).1 k = dget e k := by
  unfold civicStep
  (repeat' split) <;>
    simp [dget_dset_ne, Ne.symm h1, Ne.symm h2, Ne.symm h3, Ne.symm h4]

theorem dget_civicLoop_other (tt : Nat) (ck : Nat → String) (na : String)
    (e : Entry) (logs : List Log) (k : String)
    (h1 : k ≠ "is_minting_event") (h2 : k ≠ "civic_log_processing_successful")
    (h3 : k ≠ "recipient_address") (h4 : k ≠ "token_id") :
    dget (civicLoop tt ck na e logs).1 k = dget e k := by
  induction logs generalizing e with
  | nil => rfl
  | cons log rest ih =>
    have hstep := dget_civicStep_other tt ck na e log k h1 h2 h3 h4
    unfold civicLoop
    split
    · next heq =>
        rw [heq] at hstep
        rw [ih _]
        exact hstep
    · next heq =>
        rw [heq] at hstep
        exact hstep

theorem dget_privadoBranch_other (env : Env) (r1 : Entry)
    (input : Option (List Nat)) (address : String) (k : String)
    (h1 : k ≠ "decoded_function") (h2 : k ≠ "decoded_parameters")
    (h3 : k ≠ "privado_decoding_successful") (h4 : k ≠ "is_genesis_transition")
    (h5 : k ≠ "error") :
    dget (privadoBranch env r1 input address) k = dget r1 k := by
  unfold privadoBranch
  (repeat' split) <;>
    simp [dget_dset_ne, Ne.symm h1, Ne.symm h2, Ne.symm h3, Ne.symm h4, Ne.symm h5]

theorem dget_civicBranch_other (env : Env) (hexHash na : String) (r1 : Entry)
    (k : String)
    (h1 : k ≠ "is_minting_event") (h2 : k ≠ "civic_log_processing_successful")
    (h3 : k ≠ "recipient_address") (h4 : k ≠ "token_id") (h5 : k ≠ "error") :
    dget (civicBranch env hexHash na r1) k = dget r1 k := by
  unfold civicBranch
  split
  · simp [dget_dset_ne, Ne.symm h5]
  · next logs heq0 =>
    have hloop := dget_civicLoop_other env.transferTopic env.toChecksumAddress
      na r1 logs k h1 h2 h3 h4
    split
    · next heq =>
        rw [heq] at hloop
        rw [dget_dset_ne _ _ (Ne.symm h5), hloop]
    · next heq =>
        rw [heq] at hloop
        split
        · rw [dget_dset_ne _ _ (Ne.symm h5), hloop]
        · exact hloop

theorem processTask_hash (env : Env) (hexHash : String)
    (cfgAddr : Option String) (nullAddress analysisMode : String) :
    dget (processTransactionTask env hexHash cfgAddr nullAddress analysisMode)
      "transaction_hash" = some (.s hexHash) := by
  have hinit : dget (initialEntry hexHash) "transaction_hash" = some (.s hexHash) := by
    simp [initialEntry, dget]
  unfold processTransactionTask
  split
  · simp [dget_dset_ne, hinit]
  · simp [dget_dset_ne, hinit]
  · split
    · simp [dget_dset_ne, hinit]
    · split
      · simp [dget_dset_ne, hinit]
      · simp [dget_dset_ne, hinit]
      · split
        · simp [dget_dset_ne, hinit]
        · split
          · rw [dget_privadoBranch_other _ _ _ _ _
              (by decide) (by decide) (by decide) (by decide) (by decide)]
            simp [dget_dset_ne, hinit]
          · split
            · rw [dget_civicBranch_other _ _ _ _ _
                (by decide) (by decide) (by decide) (by decide) (by decide)]
              simp [dget_dset_ne, hinit]
            · simp [dget_dset_ne, hinit]

/-! ## Aggregation lemmas (claim C1) -/

theorem failedEntry_hash (hexHash m : String) :
    dget (failedEntry hexHash m) "transaction_hash" = some (.s hexHash) := by
  simp [failedEntry, dget]

theorem failedEntry_flags (hexHash m : String) :
    successFlagsFalse (failedEntry hexHash m) = true ∧
    errorNonNull (failedEntry hexHash m) = true := by
  constructor <;> simp [successFlagsFalse, errorNonNull, failedEntry, dget]

theorem processTask_fetchFail_flags (env : Env) (hexHash : String)
    (cfgAddr : Option String) (na mode : String)
    (hf : fetchFails env cfgAddr hexHash = true) :
    successFlagsFalse (processTransactionTask env hexHash cfgAddr na mode) = true ∧
    errorNonNull (processTransactionTask env hexHash cfgAddr na mode) = true := by
  unfold fetchFails at hf
  cases h1 : env.getTransaction hexHash with
  | error e =>
      rw [processTask_fetchError env hexHash cfgAddr na mode e h1]
      constructor <;> simp [successFlagsFalse, errorNonNull, initialEntry, dset, dget]
  | ok otx =>
    cases otx with
    | none =>
        rw [processTask_txNotFound env hexHash cfgAddr na mode h1]
        constructor <;> simp [successFlagsFalse, errorNonNull, initialEntry, dset, dget]
    | some tx =>
      simp only [h1] at hf
      cases h2 : tx.blockNumber with
      | none =>
          rw [processTask_pending env hexHash cfgAddr na mode tx h1 h2]
          constructor <;> simp [successFlagsFalse, errorNonNull, initialEntry, dset, dget]
      | some bn =>
        simp only [h2] at hf
        cases h3 : env.getBlockTimestamp bn with
        | error e =>
            rw [processTask_blockError env hexHash cfgAddr na mode tx bn e h1 h2 h3]
            constructor <;> simp [successFlagsFalse, errorNonNull, initialEntry, dset, dget]
        | ok ots =>
          cases ots with
          | none =>
              rw [processTask_noTimestamp env hexHash cfgAddr na mode tx bn h1 h2 h3]
              constructor <;> simp [successFlagsFalse, errorNonNull, initialEntry, dset, dget]
          | some ts =>
            simp only [h3] at hf
            have haddr : pyTruthy (resolveTargetAddress cfgAddr tx.toAddr) = false := by
              simpa using hf
            rw [processTask_noAddress env hexHash cfgAddr na mode tx bn ts h1 h2 h3 haddr]
            constructor <;>
              simp [successFlagsFalse, errorNonNull, initialEntry, dset, dget]

theorem runAggregate_length (env : Env) (cfgAddr : Option String)
    (na mode : String) (crashed : String → Option String) (order : List String) :
    (runAggregate env cfgAddr na mode crashed order).length = order.length := by
  unfold runAggregate
  exact List.length_map _ _

theorem runAggregate_count_one (env : Env) (cfgAddr : Option String)
    (na mode : String) (crashed : String → Option String)
    (hashes order : List String) (hnodup : hashes.Nodup) (hperm : order.Perm hashes)
    (h : String) (hmem : h ∈ hashes) :
    (runAggregate env cfgAddr na mode crashed order).countP
      (fun e => dget e "transaction_hash" == some (.s h)) = 1 := by
  unfold runAggregate
  rw [List.countP_map]
  have hfun : ((fun e => dget e "transaction_hash" == some (.s h)) ∘ fun hh =>
      match crashed hh with
      | some msg => failedEntry hh msg
      | none => processTransactionTask env hh cfgAddr na mode) = (· == h) := by
    funext x
    have hx : dget (match crashed x with
        | some msg => failedEntry x msg
        | none => processTransactionTask env x cfgAddr na mode)
        "transaction_hash" = some (.s x) := by
      cases crashed x with
      | some msg => exact failedEntry_hash x msg
      | none => exact processTask_hash env x cfgAddr na mode
    simp only [Function.comp_apply, hx]
    by_cases hxe : x = h <;> simp [hxe]
  rw [hfun]
  have hcount : order.countP (· == h) = order.count h := rfl
  rw [hcount, hperm.count_eq h, List.count_eq_one_of_mem hnodup hmem]

theorem runAggregate_mem_form (env : Env) (cfgAddr : Option String)
    (na mode : String) (crashed : String → Option String) (order : List String)
    (e : Entry) (he : e ∈ runAggregate env cfgAddr na mode crashed order) :
    ∃ hh ∈ order, e = (match crashed hh with
      | some msg => failedEntry hh msg
      | none => processTransactionTask env hh cfgAddr na mode) := by
  unfold runAggregate at he
  obtain ⟨hh, hmem, heq⟩ := List.mem_map.mp he
  exact ⟨hh, hmem, heq.symm⟩

/-! ## Claim theorems -/

/-- C1: for every batch of distinct submitted hashes and any worker count
`1 ≤ W ≤ N`, the aggregation of `run_analytics` — quantified over every
completion order the pool can produce (any permutation of the batch) and
every crash assignment at the future boundary — returns a report with one
record per submitted hash: the report's length is `N`, each submitted hash
matches exactly one record, and a record whose future raised or whose
fetch/pre-check stage failed carries both success flags false and a non-null
error.  No failure removes a sibling's record. -/
theorem c1_report_completeness (env : Env) (cfgAddr : Option String)
    (na mode : String) (crashed : String → Option String)
    (hashes order : List String) (W : Nat)
    (hW1 : 1 ≤ W) (hW2 : W ≤ hashes.length)
    (hnodup : hashes.Nodup) (hperm : order.Perm hashes) :
    (runAggregate env cfgAddr na mode crashed order).length = hashes.length ∧
    (∀ h ∈ hashes,
      (runAggregate env cfgAddr na mode crashed order).countP
        (fun e => dget e "transaction_hash" == some (.s h)) = 1) ∧
    (∀ e ∈ runAggregate env cfgAddr na mode crashed order, ∀ h : String,
      dget e "transaction_hash" = some (.s h) →
      (crashed h ≠ none ∨ fetchFails env cfgAddr h = true) →
      successFlagsFalse e = true ∧ errorNonNull e = true) := by
  refine ⟨?_, ?_, ?_⟩
  · rw [runAggregate_length, hperm.length_eq]
  · intro h hmem
    exact runAggregate_count_one env cfgAddr na mode crashed hashes order
      hnodup hperm h hmem
  · intro e he h hhash hfail
    obtain ⟨hh, hmemo, rfl⟩ :=
      runAggregate_mem_form env cfgAddr na mode crashed order e he
    cases hc : crashed hh with
    | some msg =>
        simp only [hc]
        simp only [hc, failedEntry_hash] at hhash
        exact failedEntry_flags hh msg
    | none =>
        simp only [hc]
        simp only [hc, processTask_hash] at hhash
        have hhh : hh = h := by simpa using hhash
        subst hhh
        rcases hfail with hf | hf
        · exact absurd hc hf
        · exact processTask_fetchFail_flags env hh cfgAddr na mode hf

theorem c1_report_completeness_witness :
    (runAggregate c1Env none "0x0" "privado" c1Crashed ["h2", "h1"]).length
      = (["h1", "h2"] : List String).length :=
  (c1_report_completeness c1Env none "0x0" "privado" c1Crashed ["h1", "h2"]
    ["h2", "h1"] 1 (by decide) (by decide) (by decide) (by decide)).1

/-- C6: the per-item pipeline performs its checks in the fixed order
transaction fetch → block-number presence → block-timestamp fetch →
target-address resolution, the first failing check alone determines the
record (its specific error message, classification skipped entirely), and
only when all pass does the mode branch run. -/
theorem c6_check_order (env : Env) (hexHash : String) (cfgAddr : Option String)
    (na mode : String) :
    (env.getTransaction hexHash = .ok none →
      processTransactionTask env hexHash cfgAddr na mode =
        dset (initialEntry hexHash) "error" (.s "Transaction not found")) ∧
    (∀ tx : Tx, env.getTransaction hexHash = .ok (some tx) →
      tx.blockNumber = none →
      processTransactionTask env hexHash cfgAddr na mode =
        dset (initialEntry hexHash) "error"
          (.s "Transaction is pending (no block number)")) ∧
    (∀ (tx : Tx) (bn : Nat), env.getTransaction hexHash = .ok (some tx) →
      tx.blockNumber = some bn → env.getBlockTimestamp bn = .ok none →
      processTransactionTask env hexHash cfgAddr na mode =
        dset (initialEntry hexHash) "error" (.s "Block found but no timestamp")) ∧
    (∀ (tx : Tx) (bn ts : Nat), env.getTransaction hexHash = .ok (some tx) →
      tx.blockNumber = some bn → env.getBlockTimestamp bn = .ok (some ts) →
      pyTruthy (resolveTargetAddress cfgAddr tx.toAddr) = false →
      processTransactionTask env hexHash cfgAddr na mode =
        dset (dset (initialEntry hexHash) "timestamp" (.n ts)) "error"
          (.s "Contract address not available for processing in this mode")) := by
  refine ⟨?_, ?_, ?_, ?_⟩
  · intro h
    exact processTask_txNotFound env hexHash cfgAddr na mode h
  · intro tx h hbn
    exact processTask_pending env hexHash cfgAddr na mode tx h hbn
  · intro tx bn h hbn hts
    exact processTask_noTimestamp env hexHash cfgAddr na mode tx bn h hbn hts
  · intro tx bn ts h hbn hts haddr
    exact processTask_noAddress env hexHash cfgAddr na mode tx bn ts h hbn hts haddr

theorem c6_check_order_witness :
    processTransactionTask envTxAbsent "0xa" (some "0xC") "0x0" "privado" =
      dset (initialEntry "0xa") "error" (.s "Transaction not found") ∧
    processTransactionTask envPending "0xa" (some "0xC") "0x0" "privado" =
      dset (initialEntry "0xa") "error"
        (.s "Transaction is pending (no block number)") ∧
    processTransactionTask envNoTimestamp "0xa" (some "0xC") "0x0" "privado" =
      dset (initialEntry "0xa") "error" (.s "Block found but no timestamp") ∧
    processTransactionTask envNoAddress "0xa" none "0x0" "privado" =
      dset (dset (initialEntry "0xa") "timestamp" (.n 1000)) "error"
        (.s "Contract address not available for processing in this mode") :=
  ⟨(c6_check_order envTxAbsent "0xa" (some "0xC") "0x0" "privado").1 rfl,
   (c6_check_order envPending "0xa" (some "0xC") "0x0" "privado").2.1 pendingTx rfl rfl,
   (c6_check_order envNoTimestamp "0xa" (some "0xC") "0x0" "privado").2.2.1
     testTx 5 rfl rfl rfl,
   (c6_check_order envNoAddress "0xa" none "0x0" "privado").2.2.2
     noToTx 5 1000 rfl rfl rfl rfl⟩

/-- C7: every record — built by the worker for any environment, mode and
hash, or substituted at the future boundary — carries exactly the fixed
eleven-key set, in order; absent values are represented by null/false values
under those keys, never by a missing key. -/
theorem c7_record_shape (env : Env) (hexHash excMsg : String)
    (cfgAddr : Option String) (na mode : String) :
    entryKeys (processTransactionTask env hexHash cfgAddr na mode) = resultKeys ∧
    entryKeys (failedEntry hexHash excMsg) = resultKeys :=
  ⟨processTransactionTask_keys env hexHash cfgAddr na mode,
   entryKeys_failedEntry hexHash excMsg⟩

/-- C9: `Config.__post_init__` silently coerces any analysis mode outside
privado/civic/worldid to `privado` and accepts `worldid` unchanged, yet the
task has no worldid branch: whenever the pre-checks pass, a worldid run
yields a per-item record with error "Unsupported analysis mode: worldid" and
both success flags false (the run is not aborted). -/
theorem c9_mode_coercion_worldid :
    (∀ m : String, m ∉ validAnalysisModes → postInitAnalysisMode m = "privado") ∧
    postInitAnalysisMode "worldid" = "worldid" ∧
    (∀ (env : Env) (hexHash : String) (cfgAddr : Option String) (na : String)
        (tx : Tx) (bn ts : Nat),
      env.getTransaction hexHash = .ok (some tx) →
      tx.blockNumber = some bn →
      env.getBlockTimestamp bn = .ok (some ts) →
      pyTruthy (resolveTargetAddress cfgAddr tx.toAddr) = true →
      dget (processTransactionTask env hexHash cfgAddr na "worldid") "error"
        = some (.s "Unsupported analysis mode: worldid") ∧
      successFlagsFalse (processTransactionTask env hexHash cfgAddr na "worldid")
        = true) := by
  refine ⟨?_, by decide, ?_⟩
  · intro m hm
    unfold postInitAnalysisMode
    rw [if_neg hm]
  · intro env hexHash cfgAddr na tx bn ts h1 h2 h3 h4
    rw [processTask_unsupportedMode env hexHash cfgAddr na "worldid" tx bn ts
      h1 h2 h3 h4 (by decide) (by decide)]
    constructor
    · rw [dget_dset_self]
      decide
    · simp [successFlagsFalse, dget_dset_ne, initialEntry, dset, dget]

theorem c9_mode_coercion_worldid_witness :
    postInitAnalysisMode "bogus" = "privado" ∧
    dget (processTransactionTask baseEnv "0xa" none "0x0" "worldid") "error"
      = some (.s "Unsupported analysis mode: worldid") :=
  ⟨c9_mode_coercion_worldid.1 "bogus" (by decide),
   (c9_mode_coercion_worldid.2.2 baseEnv "0xa" none "0x0" testTx 5 1000
     rfl rfl rfl rfl).1⟩

/-- C10: every record returned by `process_transaction_task` satisfies the
cross-field invariant: a genesis transition implies successful privado
decoding, the mint flag and the civic success flag always agree, and
recipient address and token id are non-null only when the mint flag is
set. -/
theorem c10_record_invariant (env : Env) (hexHash : String)
    (cfgAddr : Option String) (na mode : String) :
    entryInvariant (processTransactionTask env hexHash cfgAddr na mode) = true :=
  processTransactionTask_invariant env hexHash cfgAddr na mode

/-- C2 (amended): in civic mode the scan does mark a mint based on matching
logs (first topic = Transfer hash, sender = null address), but because the
loop has no `break` every matching log overwrites the captured fields, so for
a receipt whose logs all have at least 4 topics the reported
recipient_address and token_id are those of the *last* matching log, not the
first. -/
theorem c2_civic_reports_last_match (env : Env) (hexHash : String)
    (cfgAddr : Option String) (na : String) (tx : Tx) (bn ts : Nat)
    (logs : List Log) (L : Log)
    (h1 : env.getTransaction hexHash = .ok (some tx))
    (h2 : tx.blockNumber = some bn)
    (h3 : env.getBlockTimestamp bn = .ok (some ts))
    (h4 : pyTruthy (resolveTargetAddress cfgAddr tx.toAddr) = true)
    (hlogs : env.getReceiptLogs hexHash = .ok logs)
    (hwf : ∀ log ∈ logs, 4 ≤ log.topics.length)
    (hlast : lastMintMatch env.transferTopic env.toChecksumAddress na logs = some L) :
    dget (processTransactionTask env hexHash cfgAddr na "civic")
      "is_minting_event" = some (.b true) ∧
    dget (processTransactionTask env hexHash cfgAddr na "civic")
      "civic_log_processing_successful" = some (.b true) ∧
    dget (processTransactionTask env hexHash cfgAddr na "civic")
      "recipient_address"
      = some (.s (env.toChecksumAddress (L.topics.getD 2 0 % 2 ^ 160))) ∧
    dget (processTransactionTask env hexHash cfgAddr na "civic") "token_id"
      = some (.n (L.topics.getD 3 0)) := by
  rw [processTask_civic env hexHash cfgAddr na tx bn ts h1 h2 h3 h4]
  unfold civicBranch
  have hl := civicLoop_lastMatch env.transferTopic env.toChecksumAddress na
    (dset (initialEntry hexHash) "timestamp" (.n ts)) logs L hwf hlast
  cases hcl : civicLoop env.transferTopic env.toChecksumAddress na
      (dset (initialEntry hexHash) "timestamp" (.n ts)) logs with
  | mk r2 err =>
    rw [hcl] at hl
    obtain ⟨herr, hmint, hciv, hrec, htok⟩ := hl
    simp only at herr hmint hciv hrec htok
    subst herr
    simp only [hlogs, hcl, hmint, Option.getD_some, fvalTruthy]
    exact ⟨hmint, hciv, hrec, htok⟩

theorem c2_counterexample :
    isMintMatch 99 ckFn "0" ⟨[99, 0, 5, 100]⟩ = true ∧
    isMintMatch 99 ckFn "0" ⟨[99, 0, 7, 200]⟩ = true ∧
    dget (processTransactionTask c2Env "0xt" none "0" "civic")
      "recipient_address" = some (.s "7") ∧
    dget (processTransactionTask c2Env "0xt" none "0" "civic")
      "token_id" = some (.n 200) ∧
    FVal.s "7" ≠ FVal.s "5" := by
  decide

theorem c2_civic_reports_last_match_witness :
    dget (processTransactionTask c2Env "0xt" none "0" "civic")
      "is_minting_event" = some (.b true) ∧
    dget (processTransactionTask c2Env "0xt" none "0" "civic")
      "civic_log_processing_successful" = some (.b true) ∧
    dget (processTransactionTask c2Env "0xt" none "0" "civic")
      "recipient_address"
      = some (.s (c2Env.toChecksumAddress
          ((Log.mk [99, 0, 7, 200]).topics.getD 2 0 % 2 ^ 160))) ∧
    dget (processTransactionTask c2Env "0xt" none "0" "civic") "token_id"
      = some (.n ((Log.mk [99, 0, 7, 200]).topics.getD 3 0)) :=
  c2_civic_reports_last_match c2Env "0xt" none "0" testTx 5 1000
    [⟨[99, 0, 5, 100]⟩, ⟨[99, 0, 7, 200]⟩] ⟨[99, 0, 7, 200]⟩
    rfl rfl rfl rfl rfl (by decide) (by decide)

/-- C3 (amended): the civic log decoder recognises a transfer log from its
first topic and the null-sender check alone — no topic-count check: a log
whose first topic differs is skipped without error; a log whose first topic
matches and whose sender is the null address has recipient and token id
extracted from topics 2 and 3 whenever at least 4 topics exist (also with
more than 4); and a matching log with too few topics aborts the scan with an
index error (a per-item error), it is not skipped. -/
theorem c3_log_decoder (tt : Nat) (ck : Nat → String) (na : String)
    (e : Entry) (log : Log) :
    (∀ t0, log.topics[0]? = some t0 → t0 ≠ tt →
      civicStep tt ck na e log = (e, none)) ∧
    (∀ t1 t2 t3, log.topics[0]? = some tt → log.topics[1]? = some t1 →
      ck (t1 % 2 ^ 160) = na → log.topics[2]? = some t2 →
      log.topics[3]? = some t3 →
      civicStep tt ck na e log =
        (dset (dset (dset (dset e "is_minting_event" (.b true))
          "civic_log_processing_successful" (.b true))
          "recipient_address" (.s (ck (t2 % 2 ^ 160))))
          "token_id" (.n t3), none)) ∧
    (log.topics[0]? = some tt → log.topics[1]? = none →
      civicStep tt ck na e log = (e, some indexErrorMsg)) := by
  refine ⟨?_, ?_, ?_⟩
  · intro t0 h0 hne
    exact civicStep_skip tt ck na e log t0 h0 hne
  · intro t1 t2 t3 h0 h1 hna h2 h3
    exact civicStep_match tt ck na e log t1 t2 t3 h0 h1 hna h2 h3
  · intro h0 h1
    exact civicStep_shortMatch tt ck na e log h0 h1

theorem c3_counterexample :
    (Log.mk [99, 0, 9, 77, 123]).topics.length ≠ 4 ∧
    civicStep 99 ckFn "0" (initialEntry "0xc") ⟨[99, 0, 9, 77, 123]⟩ =
      (dset (dset (dset (dset (initialEntry "0xc") "is_minting_event" (.b true))
        "civic_log_processing_successful" (.b true))
        "recipient_address" (.s "9"))
        "token_id" (.n 77), none) := by
  decide

theorem c3_log_decoder_witness :
    civicStep 99 ckFn "0" (initialEntry "0xc") ⟨[98, 0, 9, 77]⟩ =
      (initialEntry "0xc", none) ∧
    civicStep 99 ckFn "0" (initialEntry "0xc") ⟨[99, 0, 9, 77]⟩ =
      (dset (dset (dset (dset (initialEntry "0xc") "is_minting_event" (.b true))
        "civic_log_processing_successful" (.b true))
        "recipient_address" (.s "9"))
        "token_id" (.n 77), none) ∧
    civicStep 99 ckFn "0" (initialEntry "0xc") ⟨[99]⟩ =
      (initialEntry "0xc", some indexErrorMsg) :=
  ⟨(c3_log_decoder 99 ckFn "0" (initialEntry "0xc") ⟨[98, 0, 9, 77]⟩).1
      98 rfl (by decide),
   (c3_log_decoder 99 ckFn "0" (initialEntry "0xc") ⟨[99, 0, 9, 77]⟩).2.1
      0 9 77 rfl rfl (by decide) rfl rfl,
   (c3_log_decoder 99 ckFn "0" (initialEntry "0xc") ⟨[99]⟩).2.2 rfl rfl⟩

/-- C5 (code bug): at a concrete decodable transaction the privado branch
records the function name, the parameter mapping, the success flag and the
genesis flag as claimed; at a concrete transaction whose call data does not
decode, the success flag stays false but the error also stays null — the
source's `result_entry.get("error", "Privado decoding failed or no input
data")` never stores its default because the "error" key is always present —
contradicting the claim's "a non-null error is recorded". -/
theorem c5_privado_classification :
    dget (processTransactionTask privadoOkEnv "0xa" none "0x0" "privado")
      "privado_decoding_successful" = some (.b true) ∧
    dget (processTransactionTask privadoOkEnv "0xa" none "0x0" "privado")
      "decoded_function" = some (.s "transitState") ∧
    dget (processTransactionTask privadoOkEnv "0xa" none "0x0" "privado")
      "decoded_parameters"
      = some (.params [("isOldStateGenesis", .bool true), ("id", .int 7)]) ∧
    dget (processTransactionTask privadoOkEnv "0xa" none "0x0" "privado")
      "is_genesis_transition" = some (.b true) ∧
    dget (processTransactionTask baseEnv "0xa" none "0x0" "privado")
      "privado_decoding_successful" = some (.b false) ∧
    dget (processTransactionTask baseEnv "0xa" none "0x0" "privado")
      "error" = some .null := by
  decide

/-- C8 (code bug): in privado mode, whenever the pre-checks pass and the call
data does not decode, the civic mint fields all keep their initial
null/false values (the privado branch never writes them — the frame part of
the claim holds), the privado success flag stays false, but the error also
stays null (same dead `dict.get` default as in C5), contradicting the claim's
non-null `AbiDecodeFailure`/`EmptyInput` error. -/
theorem c8_privado_no_decode (env : Env) (hexHash : String)
    (cfgAddr : Option String) (na : String) (tx : Tx) (bn ts : Nat)
    (h1 : env.getTransaction hexHash = .ok (some tx))
    (h2 : tx.blockNumber = some bn)
    (h3 : env.getBlockTimestamp bn = .ok (some ts))
    (h4 : pyTruthy (resolveTargetAddress cfgAddr tx.toAddr) = true)
    (hdec : env.decodeTransactionInput tx.input
      ((resolveTargetAddress cfgAddr tx.toAddr).getD "") = none) :
    dget (processTransactionTask env hexHash cfgAddr na "privado")
      "privado_decoding_successful" = some (.b false) ∧
    dget (processTransactionTask env hexHash cfgAddr na "privado")
      "is_minting_event" = some (.b false) ∧
    dget (processTransactionTask env hexHash cfgAddr na "privado")
      "recipient_address" = some .null ∧
    dget (processTransactionTask env hexHash cfgAddr na "privado")
      "token_id" = some .null ∧
    dget (processTransactionTask env hexHash cfgAddr na "privado")
      "civic_log_processing_successful" = some (.b false) ∧
    dget (processTransactionTask env hexHash cfgAddr na "privado")
      "error" = some .null := by
  rw [processTask_privado env hexHash cfgAddr na tx bn ts h1 h2 h3 h4]
  unfold privadoBranch
  simp only [hdec]
  have herr : dget (dset (initialEntry hexHash) "timestamp" (.n ts)) "error"
      = some .null := by
    simp [initialEntry, dset, dget]
  rw [herr]
  refine ⟨?_, ?_, ?_, ?_, ?_, ?_⟩ <;>
    simp [dget_dset_ne, dget_dset_self, initialEntry, dset, dget]

theorem c8_privado_no_decode_witness :
    dget (processTransactionTask baseEnv "0xb" none "0x0" "privado")
      "privado_decoding_successful" = some (.b false) ∧
    dget (processTransactionTask baseEnv "0xb" none "0x0" "privado")
      "is_minting_event" = some (.b false) ∧
    dget (processTransactionTask baseEnv "0xb" none "0x0" "privado")
      "recipient_address" = some .null ∧
    dget (processTransactionTask baseEnv "0xb" none "0x0" "privado")
      "token_id" = some .null ∧
    dget (processTransactionTask baseEnv "0xb" none "0x0" "privado")
      "civic_log_processing_successful" = some (.b false) ∧
    dget (processTransactionTask baseEnv "0xb" none "0x0" "privado")
      "error" = some .null :=
  c8_privado_no_decode baseEnv "0xb" none "0x0" testTx 5 1000 rfl rfl rfl rfl rfl

/-! ## Value Codec lemmas and round trip (claim C4) -/

/-! ## Byte-level lemmas -/

theorem length_natToBytesBE (k n : Nat) : (natToBytesBE k n).length = k := by
  induction k generalizing n with
  | zero => rfl
  | succ k ih => simp [natToBytesBE, ih]

theorem word_length (n : Nat) : (word n).length = 32 := length_natToBytesBE 32 n

theorem bytesToNat_foldl (bs : List Nat) (a : Nat) :
    bs.foldl (fun a b => a * 256 + b) a = a * 256 ^ bs.length + bytesToNat bs := by
  induction bs generalizing a with
  | nil => simp [bytesToNat]
  | cons b bs ih =>
    simp only [List.foldl_cons, bytesToNat, List.length_cons]
    rw [ih (a * 256 + b), ih (0 * 256 + b)]
    ring

theorem bytesToNat_append (xs ys : List Nat) :
    bytesToNat (xs ++ ys) = bytesToNat xs * 256 ^ ys.length + bytesToNat ys := by
  unfold bytesToNat
  rw [List.foldl_append]
  exact bytesToNat_foldl ys _

theorem bytesToNat_natToBytesBE (k n : Nat) :
    bytesToNat (natToBytesBE k n) = n % 256 ^ k := by
  induction k generalizing n with
  | zero => simp [natToBytesBE, bytesToNat, Nat.mod_one]
  | succ k ih =>
    rw [natToBytesBE, bytesToNat_append, ih]
    have h1 : bytesToNat [n % 256] = n % 256 := by simp [bytesToNat]
    have h2 : ([n % 256] : List Nat).length = 1 := rfl
    rw [h1, h2, pow_one]
    have h3 : 256 ^ (k + 1) = 256 * 256 ^ k := by ring
    rw [h3, Nat.mod_mul]
    omega

theorem take_word_append (n : Nat) (rest : List Nat) :
    ((word n ++ rest).take 32) = word n := by
  have h : (word n).length = 32 := word_length n
  rw [← h, List.take_left]

theorem drop_word_append (n : Nat) (rest : List Nat) :
    ((word n ++ rest).drop 32) = rest := by
  have h : (word n).length = 32 := word_length n
  rw [← h, List.drop_left]

theorem readWord_word (n : Nat) (rest : List Nat) (h : n < 2 ^ 256) :
    readWord (word n ++ rest) = some n := by
  unfold readWord
  have hlen : 32 ≤ (word n ++ rest).length := by
    simp [word_length]
  rw [if_pos hlen, take_word_append]
  unfold word
  rw [bytesToNat_natToBytesBE]
  have h256 : (256 : Nat) ^ 32 = 2 ^ 256 := by norm_num
  rw [h256, Nat.mod_eq_of_lt h]

/-! ## UTF-8 round trip -/

theorem utf8DecodeChars_encodeChar (c : Char) (rest : List Nat) :
    utf8DecodeChars (utf8EncodeChar c.toNat ++ rest)
      = (utf8DecodeChars rest).map (fun cs => c :: cs) := by
  have hv : Nat.isValidChar c.toNat := c.valid
  have hvr : c.toNat < 0xD800 ∨ (0xDFFF < c.toNat ∧ c.toNat < 0x110000) := hv
  set n := c.toNat with hn
  have hc : Char.ofNat n = c := by rw [hn, Char.ofNat_toNat]
  by_cases h1 : n < 0x80
  · unfold utf8EncodeChar
    rw [if_pos h1]
    simp only [List.cons_append, List.nil_append]
    simp only [utf8DecodeChars]
    rw [if_pos h1, hc]
  · by_cases h2 : n < 0x800
    · unfold utf8EncodeChar
      rw [if_neg h1, if_pos h2]
      simp only [List.cons_append, List.nil_append]
      simp only [utf8DecodeChars]
      rw [if_neg (by omega), if_neg (by omega), if_pos (by omega)]
      simp only [utf8Dec2]
      rw [if_pos (by
        simp only [Bool.and_eq_true, decide_eq_true_eq]
        omega)]
      have harith : (0xC0 + n / 64 - 0xC0) * 64 + (0x80 + n % 64 - 0x80) = n := by
        omega
      rw [harith, hc]
    · by_cases h3 : n < 0x10000
      · have hsur : n < 0xD800 ∨ 0xDFFF < n := by omega
        unfold utf8EncodeChar
        rw [if_neg h1, if_neg h2, if_pos h3]
        simp only [List.cons_append, List.nil_append]
        simp only [utf8DecodeChars]
        rw [if_neg (by omega), if_neg (by omega), if_neg (by omega),
          if_pos (by omega)]
        simp only [utf8Dec3]
        rw [if_pos (by
          simp only [Bool.and_eq_true, Bool.not_eq_true', Bool.and_eq_false_iff,
            beq_iff_eq, beq_eq_false_iff_ne, decide_eq_true_eq,
            decide_eq_false_iff_not, ne_eq]
          omega)]
        have harith : (0xE0 + n / 4096 - 0xE0) * 4096
            + (0x80 + n / 64 % 64 - 0x80) * 64 + (0x80 + n % 64 - 0x80) = n := by
          omega
        rw [harith, hc]
      · have h4 : n < 0x110000 := by omega
        unfold utf8EncodeChar
        rw [if_neg h1, if_neg h2, if_neg h3]
        simp only [List.cons_append, List.nil_append]
        simp only [utf8DecodeChars]
        rw [if_neg (by omega), if_neg (by omega), if_neg (by omega),
          if_neg (by omega), if_pos (by omega)]
        simp only [utf8Dec4]
        rw [if_pos (by
          simp only [Bool.and_eq_true, Bool.not_eq_true', Bool.and_eq_false_iff,
            beq_iff_eq, beq_eq_false_iff_ne, decide_eq_true_eq,
            decide_eq_false_iff_not, ne_eq]
          omega)]
        have harith : (0xF0 + n / 262144 - 0xF0) * 262144
            + (0x80 + n / 4096 % 64 - 0x80) * 4096
            + (0x80 + n / 64 % 64 - 0x80) * 64 + (0x80 + n % 64 - 0x80) = n := by
          omega
        rw [harith, hc]

theorem utf8DecodeChars_foldr (cs : List Char) (rest : List Nat) :
    utf8DecodeChars (cs.foldr (fun c acc => utf8EncodeChar c.toNat ++ acc) rest)
      = (utf8DecodeChars rest).map (fun tl => cs ++ tl) := by
  induction cs with
  | nil =>
    simp only [List.foldr_nil, List.nil_append]
    cases utf8DecodeChars rest <;> rfl
  | cons c cs ih =>
    simp only [List.foldr_cons]
    rw [utf8DecodeChars_encodeChar, ih]
    cases utf8DecodeChars rest <;> simp

theorem utf8Decode_utf8Encode (s : String) : utf8Decode (utf8Encode s) = some s := by
  have h := utf8DecodeChars_foldr s.data []
  rw [show utf8DecodeChars ([] : List Nat) = some [] from rfl] at h
  simp only [Option.map_some', List.append_nil] at h
  unfold utf8Decode utf8Encode
  rw [h]

/-! ## Codec structure lemmas -/

theorem sumStaticSize_replicate (k : Nat) (t : AbiType) :
    sumStaticSize (List.replicate k t) = k * staticSize t := by
  induction k with
  | zero => rw [List.replicate_zero]; rw [sumStaticSize]; omega
  | succ k ih => rw [List.replicate_succ, sumStaticSize, ih]; ring

theorem validTypes_replicate (k : Nat) (t : AbiType) (h : validType t = true) :
    validTypes (List.replicate k t) = true := by
  induction k with
  | zero => rfl
  | succ k ih => rw [List.replicate_succ, validTypes, h, ih]; rfl

theorem anyDynamic_replicate (k : Nat) (t : AbiType) (h : isDynamic t = false) :
    anyDynamic (List.replicate k t) = false := by
  induction k with
  | zero => rfl
  | succ k ih => rw [List.replicate_succ, anyDynamic, h, ih]; rfl

theorem inRangeSeq_replicate (t : AbiType) (vs : List Value)
    (h : inRangeList t vs = true) :
    inRangeSeq (List.replicate vs.length t) vs = true := by
  induction vs with
  | nil => rfl
  | cons v vs ih =>
    rw [inRangeList] at h
    simp only [Bool.and_eq_true] at h
    rw [List.length_cons, List.replicate_succ, inRangeSeq, h.1, ih h.2]
    rfl

theorem encSeqAux_snd_static (ts : List AbiType) (vs : List Value) (tb : Nat)
    (h : anyDynamic ts = false) : (encSeqAux ts vs tb).2 = [] := by
  induction ts generalizing vs tb with
  | nil => cases vs <;> rfl
  | cons t ts ih =>
    cases vs with
    | nil => rfl
    | cons v vs =>
      rw [anyDynamic] at h
      simp only [Bool.or_eq_false_iff] at h
      rw [encSeqAux, if_neg (by rw [h.1]; simp)]
      exact ih vs tb h.2

theorem staticSize_dyn (t : AbiType) (h : isDynamic t = true) : staticSize t = 32 := by
  cases t with
  | fixedArray t k => rw [isDynamic] at h; rw [staticSize, if_pos h]
  | tuple ts => rw [isDynamic] at h; rw [staticSize, if_pos h]
  | bytes => rfl
  | string => rfl
  | array t => rfl
  | uint n => exact Bool.noConfusion h
  | int n => exact Bool.noConfusion h
  | address => exact Bool.noConfusion h
  | bool => exact Bool.noConfusion h
  | bytesN n => exact Bool.noConfusion h

theorem staticSize_pos (t : AbiType) (hv : validType t = true) : 0 < staticSize t := by
  cases t with
  | fixedArray t k =>
    rw [validType] at hv
    simp only [Bool.and_eq_true, decide_eq_true_eq] at hv
    rw [staticSize]
    split
    · omega
    · exact Nat.mul_pos hv.2 (staticSize_pos t hv.1)
  | tuple ts =>
    rw [staticSize]
    split
    · omega
    · rw [validType] at hv
      simp only [Bool.and_eq_true] at hv
      cases ts with
      | nil => simp at hv
      | cons t ts =>
        have hv1 : validType t = true := by
          have h2 := hv.2
          rw [validTypes] at h2
          simp only [Bool.and_eq_true] at h2
          exact h2.1
        rw [sumStaticSize]
        have := staticSize_pos t hv1
        omega
  | uint n => show 0 < 32; decide
  | int n => show 0 < 32; decide
  | address => show 0 < 32; decide
  | bool => show 0 < 32; decide
  | bytesN n => show 0 < 32; decide
  | bytes => show 0 < 32; decide
  | string => show 0 < 32; decide
  | array t => show 0 < 32; decide

theorem decList_eq_decSeq (t : AbiType) (k : Nat) (frame : List Nat) (pos : Nat) :
    decList t k frame pos = decSeq (List.replicate k t) frame pos := by
  induction k generalizing pos with
  | zero => rw [decList, List.replicate_zero, decSeq]
  | succ k ih =>
    rw [decList, List.replicate_succ, decSeq]
    simp only [ih]

theorem encSeqAux_cons_dyn (t : AbiType) (ts : List AbiType) (v : Value)
    (vs : List Value) (tb : Nat) (hd : isDynamic t = true) :
    encSeqAux (t :: ts) (v :: vs) tb =
      (word tb ++ (encSeqAux ts vs (tb + (enc t v).length)).1,
       enc t v ++ (encSeqAux ts vs (tb + (enc t v).length)).2) := by
  rw [encSeqAux, if_pos hd]

theorem encSeqAux_cons_static (t : AbiType) (ts : List AbiType) (v : Value)
    (vs : List Value) (tb : Nat) (hd : isDynamic t = false) :
    encSeqAux (t :: ts) (v :: vs) tb =
      (enc t v ++ (encSeqAux ts vs tb).1, (encSeqAux ts vs tb).2) := by
  rw [encSeqAux, if_neg (by rw [hd]; simp)]

mutual

/-- A static parameter's in-place encoding occupies exactly its head size. -/
theorem enc_static_length (t : AbiType) (v : Value) (hd : isDynamic t = false)
    (hv : validType t = true) (hr : inRange t v = true) :
    (enc t v).length = staticSize t := by
  cases t with
  | uint n =>
    cases v with
    | int i => exact word_length _
    | addr a => exact Bool.noConfusion hr
    | bool b => exact Bool.noConfusion hr
    | bytes bs => exact Bool.noConfusion hr
    | str s => exact Bool.noConfusion hr
    | list vs => exact Bool.noConfusion hr
  | int n =>
    cases v with
    | int i => exact word_length _
    | addr a => exact Bool.noConfusion hr
    | bool b => exact Bool.noConfusion hr
    | bytes bs => exact Bool.noConfusion hr
    | str s => exact Bool.noConfusion hr
    | list vs => exact Bool.noConfusion hr
  | address =>
    cases v with
    | addr a => exact word_length _
    | int i => exact Bool.noConfusion hr
    | bool b => exact Bool.noConfusion hr
    | bytes bs => exact Bool.noConfusion hr
    | str s => exact Bool.noConfusion hr
    | list vs => exact Bool.noConfusion hr
  | bool =>
    cases v with
    | bool b => exact word_length _
    | int i => exact Bool.noConfusion hr
    | addr a => exact Bool.noConfusion hr
    | bytes bs => exact Bool.noConfusion hr
    | str s => exact Bool.noConfusion hr
    | list vs => exact Bool.noConfusion hr
  | bytesN n =>
    cases v with
    | bytes bs =>
      show (bs ++ List.replicate (32 - n) 0).length = 32
      rw [validType] at hv
      rw [inRange] at hr
      simp only [Bool.and_eq_true, decide_eq_true_eq] at hv hr
      rw [List.length_append, List.length_replicate, hr.1]
      omega
    | int i => exact Bool.noConfusion hr
    | addr a => exact Bool.noConfusion hr
    | bool b => exact Bool.noConfusion hr
    | str s => exact Bool.noConfusion hr
    | list vs => exact Bool.noConfusion hr
  | bytes => exact Bool.noConfusion hd
  | string => exact Bool.noConfusion hd
  | array t => exact Bool.noConfusion hd
  | fixedArray t k =>
    cases v with
    | list vs =>
      rw [isDynamic] at hd
      rw [validType] at hv
      rw [inRange] at hr
      simp only [Bool.and_eq_true, decide_eq_true_eq] at hv hr
      show ((encSeqAux (List.replicate vs.length t) vs
          (sumStaticSize (List.replicate vs.length t))).1 ++
        (encSeqAux (List.replicate vs.length t) vs
          (sumStaticSize (List.replicate vs.length t))).2).length
        = staticSize (.fixedArray t k)
      rw [encSeqAux_snd_static _ _ _ (anyDynamic_replicate _ _ hd), List.append_nil]
      rw [encSeqAux_fst_length (List.replicate vs.length t) vs _
        (validTypes_replicate _ _ hv.1) (inRangeSeq_replicate _ _ hr.2)]
      rw [sumStaticSize_replicate, hr.1, staticSize, if_neg (by rw [hd]; simp)]
    | int i => exact Bool.noConfusion hr
    | addr a => exact Bool.noConfusion hr
    | bool b => exact Bool.noConfusion hr
    | bytes bs => exact Bool.noConfusion hr
    | str s => exact Bool.noConfusion hr
  | tuple ts =>
    cases v with
    | list vs =>
      rw [isDynamic] at hd
      rw [validType] at hv
      rw [inRange] at hr
      simp only [Bool.and_eq_true] at hv
      show ((encSeqAux ts vs (sumStaticSize ts)).1 ++
        (encSeqAux ts vs (sumStaticSize ts)).2).length = staticSize (.tuple ts)
      rw [encSeqAux_snd_static _ _ _ hd, List.append_nil]
      rw [encSeqAux_fst_length ts vs _ hv.2 hr]
      rw [staticSize, if_neg (by rw [hd]; simp)]
    | int i => exact Bool.noConfusion hr
    | addr a => exact Bool.noConfusion hr
    | bool b => exact Bool.noConfusion hr
    | bytes bs => exact Bool.noConfusion hr
    | str s => exact Bool.noConfusion hr

/-- The head of the head-tail encoding of a parameter sequence has exactly the
summed head size, whatever the tail base. -/
theorem encSeqAux_fst_length (ts : List AbiType) (vs : List Value) (tb : Nat)
    (hv : validTypes ts = true) (hr : inRangeSeq ts vs = true) :
    ((encSeqAux ts vs tb).1).length = sumStaticSize ts := by
  cases ts with
  | nil =>
    cases vs with
    | nil => rfl
    | cons v vs => exact Bool.noConfusion hr
  | cons t ts =>
    cases vs with
    | nil => exact Bool.noConfusion hr
    | cons v vs =>
      rw [validTypes] at hv
      rw [inRangeSeq] at hr
      simp only [Bool.and_eq_true] at hv hr
      rw [sumStaticSize]
      cases hdb : isDynamic t with
      | true =>
        rw [encSeqAux_cons_dyn t ts v vs tb hdb]
        simp only [List.length_append, word_length]
        rw [encSeqAux_fst_length ts vs _ hv.2 hr.2, staticSize_dyn t hdb]
      | false =>
        rw [encSeqAux_cons_static t ts v vs tb hdb]
        simp only [List.length_append]
        rw [encSeqAux_fst_length ts vs _ hv.2 hr.2,
          enc_static_length t v hdb hv.1 hr.1]

end

/-- A dynamic parameter's tail encoding is nonempty. -/
theorem enc_dyn_pos (t : AbiType) (v : Value) (hd : isDynamic t = true)
    (hv : validType t = true) (hr : inRange t v = true) :
    0 < (enc t v).length := by
  cases t with
  | uint n => exact Bool.noConfusion hd
  | int n => exact Bool.noConfusion hd
  | address => exact Bool.noConfusion hd
  | bool => exact Bool.noConfusion hd
  | bytesN n => exact Bool.noConfusion hd
  | bytes =>
    cases v with
    | bytes bs =>
      show 0 < (word bs.length ++ padTo32 bs).length
      rw [List.length_append, word_length]
      omega
    | int i => exact Bool.noConfusion hr
    | addr a => exact Bool.noConfusion hr
    | bool b => exact Bool.noConfusion hr
    | str s => exact Bool.noConfusion hr
    | list vs => exact Bool.noConfusion hr
  | string =>
    cases v with
    | str s =>
      show 0 < (word (utf8Encode s).length ++ padTo32 (utf8Encode s)).length
      rw [List.length_append, word_length]
      omega
    | int i => exact Bool.noConfusion hr
    | addr a => exact Bool.noConfusion hr
    | bool b => exact Bool.noConfusion hr
    | bytes bs => exact Bool.noConfusion hr
    | list vs => exact Bool.noConfusion hr
  | array t =>
    cases v with
    | list vs =>
      show 0 < (word vs.length ++
        (encSeqAux (List.replicate vs.length t) vs
          (sumStaticSize (List.replicate vs.length t))).1 ++
        (encSeqAux (List.replicate vs.length t) vs
          (sumStaticSize (List.replicate vs.length t))).2).length
      simp only [List.length_append, word_length]
      omega
    | int i => exact Bool.noConfusion hr
    | addr a => exact Bool.noConfusion hr
    | bool b => exact Bool.noConfusion hr
    | bytes bs => exact Bool.noConfusion hr
    | str s => exact Bool.noConfusion hr
  | fixedArray t k =>
    cases v with
    | list vs =>
      rw [validType] at hv
      rw [inRange] at hr
      simp only [Bool.and_eq_true, decide_eq_true_eq] at hv hr
      show 0 < ((encSeqAux (List.replicate vs.length t) vs
          (sumStaticSize (List.replicate vs.length t))).1 ++
        (encSeqAux (List.replicate vs.length t) vs
          (sumStaticSize (List.replicate vs.length t))).2).length
      rw [List.length_append]
      rw [encSeqAux_fst_length (List.replicate vs.length t) vs _
        (validTypes_replicate _ _ hv.1) (inRangeSeq_replicate _ _ hr.2)]
      rw [sumStaticSize_replicate, hr.1]
      have := staticSize_pos t hv.1
      have hk := hv.2
      have : 0 < k * staticSize t := Nat.mul_pos hk this
      omega
    | int i => exact Bool.noConfusion hr
    | addr a => exact Bool.noConfusion hr
    | bool b => exact Bool.noConfusion hr
    | bytes bs => exact Bool.noConfusion hr
    | str s => exact Bool.noConfusion hr
  | tuple ts =>
    cases v with
    | list vs =>
      rw [validType] at hv
      rw [inRange] at hr
      simp only [Bool.and_eq_true] at hv
      show 0 < ((encSeqAux ts vs (sumStaticSize ts)).1 ++
        (encSeqAux ts vs (sumStaticSize ts)).2).length
      rw [List.length_append]
      rw [encSeqAux_fst_length ts vs _ hv.2 hr]
      cases ts with
      | nil => simp at hv
      | cons t ts =>
        rw [sumStaticSize]
        have hv1 : validType t = true := by
          have h2 := hv.2
          rw [validTypes] at h2
          simp only [Bool.and_eq_true] at h2
          exact h2.1
        have := staticSize_pos t hv1
        omega
    | int i => exact Bool.noConfusion hr
    | addr a => exact Bool.noConfusion hr
    | bool b => exact Bool.noConfusion hr
    | bytes bs => exact Bool.noConfusion hr
    | str s => exact Bool.noConfusion hr

theorem encSeqAux_fst_cons_dyn (t : AbiType) (ts : List AbiType) (v : Value)
    (vs : List Value) (tb : Nat) (hd : isDynamic t = true) :
    (encSeqAux (t :: ts) (v :: vs) tb).1
      = word tb ++ (encSeqAux ts vs (tb + (enc t v).length)).1 := by
  rw [encSeqAux_cons_dyn t ts v vs tb hd]

theorem encSeqAux_snd_cons_dyn (t : AbiType) (ts : List AbiType) (v : Value)
    (vs : List Value) (tb : Nat) (hd : isDynamic t = true) :
    (encSeqAux (t :: ts) (v :: vs) tb).2
      = enc t v ++ (encSeqAux ts vs (tb + (enc t v).length)).2 := by
  rw [encSeqAux_cons_dyn t ts v vs tb hd]

theorem encSeqAux_fst_cons_static (t : AbiType) (ts : List AbiType) (v : Value)
    (vs : List Value) (tb : Nat) (hd : isDynamic t = false) :
    (encSeqAux (t :: ts) (v :: vs) tb).1
      = enc t v ++ (encSeqAux ts vs tb).1 := by
  rw [encSeqAux_cons_static t ts v vs tb hd]

theorem encSeqAux_snd_cons_static (t : AbiType) (ts : List AbiType) (v : Value)
    (vs : List Value) (tb : Nat) (hd : isDynamic t = false) :
    (encSeqAux (t :: ts) (v :: vs) tb).2 = (encSeqAux ts vs tb).2 := by
  rw [encSeqAux_cons_static t ts v vs tb hd]

/-- Dropping exactly the length of the left part of an append. -/
theorem drop_length_append (l1 l2 : List Nat) (m : Nat) (h : l1.length = m) :
    (l1 ++ l2).drop m = l2 := by
  rw [← h]
  exact List.drop_left l1 l2

set_option maxRecDepth 8000 in
set_option maxHeartbeats 2000000 in
/-- Size-bounded round trip of the Value Codec, by ordinary induction on the
size bound: (1) decoding the encoding of one in-range value from the front of
a buffer recovers the value; (2) walking the head of a frame that lays out the
head-tail encoding of a sequence decodes back the original values. -/
theorem dec_enc_ind (N : Nat) :
    (∀ (t : AbiType) (v : Value) (rest : List Nat), sizeOf v < N →
      validType t = true → inRange t v = true →
      (enc t v ++ rest).length < 2 ^ 256 →
      dec t (enc t v ++ rest) = some v) ∧
    (∀ (ts : List AbiType) (vs : List Value) (F : List Nat)
      (pos tb : Nat) (M R : List Nat), sizeOf vs < N →
      validTypes ts = true → inRangeSeq ts vs = true →
      F.length < 2 ^ 256 →
      F.drop pos = (encSeqAux ts vs tb).1 ++ (M ++ ((encSeqAux ts vs tb).2 ++ R)) →
      F.drop tb = (encSeqAux ts vs tb).2 ++ R →
      decSeq ts F pos = some vs) := by
  induction N with
  | zero =>
    exact ⟨fun t v rest hsz => absurd hsz (by omega),
      fun ts vs F pos tb M R hsz => absurd hsz (by omega)⟩
  | succ N ih =>
    constructor
    · intro t v rest hsz hv hr hlen
      cases t with
      | uint n =>
        cases v with
        | int i =>
          rw [validType] at hv
          rw [inRange] at hr
          simp only [Bool.and_eq_true, decide_eq_true_eq] at hv hr
          rw [enc]
          have hcast : ((2 ^ n : Nat) : Int) = (2 : Int) ^ n := by push_cast; ring
          have hlt : i.toNat < 2 ^ n := by omega
          have h256 : i.toNat < 2 ^ 256 :=
            lt_of_lt_of_le hlt (Nat.pow_le_pow_right (by norm_num) hv.2)
          rw [dec, readWord_word _ _ h256]
          simp only [Nat.mod_eq_of_lt hlt, Int.toNat_of_nonneg hr.1]
        | addr a => exact Bool.noConfusion hr
        | bool b => exact Bool.noConfusion hr
        | bytes bs => exact Bool.noConfusion hr
        | str s => exact Bool.noConfusion hr
        | list vs => exact Bool.noConfusion hr
      | int n =>
        cases v with
        | int i =>
          rw [validType] at hv
          rw [inRange] at hr
          simp only [Bool.and_eq_true, decide_eq_true_eq] at hv hr
          rw [enc]
          have hn1 : 1 ≤ n := hv.1.2
          have hw0 : (0 : Int) ≤ i % (2 ^ 256 : Int) := Int.emod_nonneg i (by positivity)
          have hwlt : i % (2 ^ 256 : Int) < 2 ^ 256 := Int.emod_lt_of_pos i (by positivity)
          have hwi : ((i % (2 ^ 256 : Int)).toNat : Int) = i % 2 ^ 256 :=
            Int.toNat_of_nonneg hw0
          have hc : ((2 ^ 256 : Nat) : Int) = (2 : Int) ^ 256 := by push_cast
          have hw256 : (i % (2 ^ 256 : Int)).toNat < 2 ^ 256 := by omega
          rw [dec, readWord_word _ _ hw256]
          have hcastn : ((2 ^ n : Nat) : Int) = (2 : Int) ^ n := by push_cast; ring
          have hcastn1 : ((2 ^ (n - 1) : Nat) : Int) = (2 : Int) ^ (n - 1) := by push_cast; ring
          have hsplitZ : (2 : Int) ^ n = 2 ^ (n - 1) * 2 := by
            rw [← pow_succ, Nat.sub_add_cancel hn1]
          have hmod : (((i % (2 ^ 256 : Int)).toNat % 2 ^ n : Nat) : Int)
              = i % (2 : Int) ^ n := by
            rw [Int.natCast_mod, hwi, Nat.cast_pow, Nat.cast_ofNat]
            exact Int.emod_emod_of_dvd i (pow_dvd_pow 2 hv.2)
          have hpow1pos : (0 : Int) < 2 ^ (n - 1) := by positivity
          rcases le_or_lt 0 i with h0 | h0
          · have him : i % (2 : Int) ^ n = i := by
              apply Int.emod_eq_of_lt h0
              calc i < 2 ^ (n - 1) := hr.2
                _ ≤ 2 ^ (n - 1) * 2 := by linarith
                _ = 2 ^ n := hsplitZ.symm
            rw [him] at hmod
            have hcond : (i % (2 ^ 256 : Int)).toNat % 2 ^ n < 2 ^ (n - 1) := by
              have h' := hmod ▸ hr.2
              rw [← hcastn1] at h'
              exact_mod_cast h'
            simp only [if_pos hcond]
            exact congrArg (fun z => some (Value.int z)) hmod
          · have him : i % (2 : Int) ^ n = i + 2 ^ n := by
              have hshift : (i + 2 ^ n * 1) % (2 : Int) ^ n = i % 2 ^ n :=
                Int.add_mul_emod_self_left i ((2 : Int) ^ n) 1
              rw [mul_one] at hshift
              rw [← hshift]
              apply Int.emod_eq_of_lt
              · linarith
              · linarith
            rw [him] at hmod
            have hcond : ¬ ((i % (2 ^ 256 : Int)).toNat % 2 ^ n < 2 ^ (n - 1)) := by
              intro hcnd
              have h' : (((i % (2 ^ 256 : Int)).toNat % 2 ^ n : Nat) : Int)
                  < ((2 ^ (n - 1) : Nat) : Int) := by exact_mod_cast hcnd
              rw [hmod, hcastn1] at h'
              linarith
            simp only [if_neg hcond]
            rw [hmod]
            congr 1
            congr 1
            ring
        | addr a => exact Bool.noConfusion hr
        | bool b => exact Bool.noConfusion hr
        | bytes bs => exact Bool.noConfusion hr
        | str s => exact Bool.noConfusion hr
        | list vs => exact Bool.noConfusion hr
      | address =>
        cases v with
        | addr a =>
          rw [inRange] at hr
          simp only [decide_eq_true_eq] at hr
          rw [enc]
          have h256 : a < 2 ^ 256 :=
            lt_of_lt_of_le hr (Nat.pow_le_pow_right (by norm_num) (by norm_num))
          rw [dec, readWord_word _ _ h256]
          simp only [Nat.mod_eq_of_lt hr]
        | int i => exact Bool.noConfusion hr
        | bool b => exact Bool.noConfusion hr
        | bytes bs => exact Bool.noConfusion hr
        | str s => exact Bool.noConfusion hr
        | list vs => exact Bool.noConfusion hr
      | bool =>
        cases v with
        | bool b =>
          cases b with
          | false =>
            rw [enc, if_neg (by simp)]
            rw [dec, readWord_word 0 rest (by norm_num)]
            rfl
          | true =>
            rw [enc, if_pos rfl]
            rw [dec, readWord_word 1 rest (by norm_num)]
            rfl
        | int i => exact Bool.noConfusion hr
        | addr a => exact Bool.noConfusion hr
        | bytes bs => exact Bool.noConfusion hr
        | str s => exact Bool.noConfusion hr
        | list vs => exact Bool.noConfusion hr
      | bytesN n =>
        cases v with
        | bytes bs =>
          rw [validType] at hv
          rw [inRange] at hr
          simp only [Bool.and_eq_true, decide_eq_true_eq] at hv hr
          rw [enc]
          rw [dec, readWord]
          rw [if_pos (by
            simp only [List.length_append, List.length_replicate]
            omega)]
          have htake : ((bs ++ List.replicate (32 - n) 0) ++ rest).take n = bs := by
            rw [List.append_assoc, ← hr.1, List.take_left]
          simp only [htake]
        | int i => exact Bool.noConfusion hr
        | addr a => exact Bool.noConfusion hr
        | bool b => exact Bool.noConfusion hr
        | str s => exact Bool.noConfusion hr
        | list vs => exact Bool.noConfusion hr
      | bytes =>
        cases v with
        | bytes bs =>
          rw [enc] at hlen ⊢
          rw [List.length_append, List.length_append, word_length, padTo32,
            List.length_append] at hlen
          have hlen2 : bs.length < 2 ^ 256 := by omega
          rw [dec, List.append_assoc, readWord_word _ _ hlen2]
          have hdrop : (word bs.length ++ (padTo32 bs ++ rest)).drop 32
              = padTo32 bs ++ rest := by
            rw [← word_length bs.length, List.drop_left]
          simp only [hdrop]
          rw [if_pos (by
            rw [padTo32, List.length_append, List.length_append]
            omega)]
          have htake : (padTo32 bs ++ rest).take bs.length = bs := by
            rw [padTo32, List.append_assoc, List.take_left]
          simp only [htake]
        | int i => exact Bool.noConfusion hr
        | addr a => exact Bool.noConfusion hr
        | bool b => exact Bool.noConfusion hr
        | str s => exact Bool.noConfusion hr
        | list vs => exact Bool.noConfusion hr
      | string =>
        cases v with
        | str s =>
          rw [enc] at hlen ⊢
          rw [List.length_append, List.length_append, word_length, padTo32,
            List.length_append] at hlen
          have hlen2 : (utf8Encode s).length < 2 ^ 256 := by omega
          rw [dec, List.append_assoc, readWord_word _ _ hlen2]
          have hdrop : (word (utf8Encode s).length ++ (padTo32 (utf8Encode s) ++ rest)).drop 32
              = padTo32 (utf8Encode s) ++ rest := by
            rw [← word_length (utf8Encode s).length, List.drop_left]
          simp only [hdrop]
          rw [if_pos (by
            rw [padTo32, List.length_append, List.length_append]
            omega)]
          have htake : (padTo32 (utf8Encode s) ++ rest).take (utf8Encode s).length
              = utf8Encode s := by
            rw [padTo32, List.append_assoc, List.take_left]
          simp only [htake, utf8Decode_utf8Encode]
        | int i => exact Bool.noConfusion hr
        | addr a => exact Bool.noConfusion hr
        | bool b => exact Bool.noConfusion hr
        | bytes bs => exact Bool.noConfusion hr
        | list vs => exact Bool.noConfusion hr
      | array t =>
        cases v with
        | list vs =>
          simp only [Value.list.sizeOf_spec] at hsz
          rw [validType] at hv
          rw [inRange] at hr
          rw [enc] at hlen ⊢
          rw [List.length_append, List.length_append, List.length_append,
            word_length] at hlen
          have hH : ((encSeqAux (List.replicate vs.length t) vs
              (sumStaticSize (List.replicate vs.length t))).1).length
              = sumStaticSize (List.replicate vs.length t) :=
            encSeqAux_fst_length _ _ _ (validTypes_replicate _ _ hv)
              (inRangeSeq_replicate _ _ hr)
          have hk : vs.length ≤ ((encSeqAux (List.replicate vs.length t) vs
              (sumStaticSize (List.replicate vs.length t))).1).length := by
            rw [hH, sumStaticSize_replicate]
            exact Nat.le_mul_of_pos_right _ (staticSize_pos t hv)
          have hk256 : vs.length < 2 ^ 256 := by
            have := hlen
            omega
          have hbuf : ((word vs.length ++
              (encSeqAux (List.replicate vs.length t) vs
                (sumStaticSize (List.replicate vs.length t))).1 ++
              (encSeqAux (List.replicate vs.length t) vs
                (sumStaticSize (List.replicate vs.length t))).2) ++ rest)
              = word vs.length ++
                ((encSeqAux (List.replicate vs.length t) vs
                  (sumStaticSize (List.replicate vs.length t))).1 ++
                ((encSeqAux (List.replicate vs.length t) vs
                  (sumStaticSize (List.replicate vs.length t))).2 ++ rest)) := by
            simp [List.append_assoc]
          rw [dec, hbuf, readWord_word _ _ hk256]
          have hdrop : (word vs.length ++
              ((encSeqAux (List.replicate vs.length t) vs
                (sumStaticSize (List.replicate vs.length t))).1 ++
              ((encSeqAux (List.replicate vs.length t) vs
                (sumStaticSize (List.replicate vs.length t))).2 ++ rest))).drop 32
              = (encSeqAux (List.replicate vs.length t) vs
                  (sumStaticSize (List.replicate vs.length t))).1 ++
                ((encSeqAux (List.replicate vs.length t) vs
                  (sumStaticSize (List.replicate vs.length t))).2 ++ rest) := by
            rw [← word_length vs.length, List.drop_left]
          simp only [hdrop]
          rw [decList_eq_decSeq]
          have hseq : decSeq (List.replicate vs.length t)
              ((encSeqAux (List.replicate vs.length t) vs
                (sumStaticSize (List.replicate vs.length t))).1 ++
              ((encSeqAux (List.replicate vs.length t) vs
                (sumStaticSize (List.replicate vs.length t))).2 ++ rest)) 0
              = some vs := by
            apply ih.2 (List.replicate vs.length t) vs _ 0
              (sumStaticSize (List.replicate vs.length t)) [] rest (by omega)
              (validTypes_replicate _ _ hv) (inRangeSeq_replicate _ _ hr)
            · rw [List.length_append, List.length_append]
              omega
            · rw [List.drop_zero, List.nil_append]
            · exact drop_length_append _ _ _ hH
          simp only [hseq]
        | int i => exact Bool.noConfusion hr
        | addr a => exact Bool.noConfusion hr
        | bool b => exact Bool.noConfusion hr
        | bytes bs => exact Bool.noConfusion hr
        | str s => exact Bool.noConfusion hr
      | fixedArray t k =>
        cases v with
        | list vs =>
          simp only [Value.list.sizeOf_spec] at hsz
          rw [validType] at hv
          rw [inRange] at hr
          simp only [Bool.and_eq_true, decide_eq_true_eq] at hv hr
          rw [enc] at hlen ⊢
          have hH : ((encSeqAux (List.replicate vs.length t) vs
              (sumStaticSize (List.replicate vs.length t))).1).length
              = sumStaticSize (List.replicate vs.length t) :=
            encSeqAux_fst_length _ _ _ (validTypes_replicate _ _ hv.1)
              (inRangeSeq_replicate _ _ hr.2)
          rw [dec, decList_eq_decSeq, List.append_assoc]
          have hseq : decSeq (List.replicate k t)
              ((encSeqAux (List.replicate vs.length t) vs
                (sumStaticSize (List.replicate vs.length t))).1 ++
              ((encSeqAux (List.replicate vs.length t) vs
                (sumStaticSize (List.replicate vs.length t))).2 ++ rest)) 0
              = some vs := by
            rw [← hr.1]
            apply ih.2 (List.replicate vs.length t) vs _ 0
              (sumStaticSize (List.replicate vs.length t)) [] rest (by omega)
              (validTypes_replicate _ _ hv.1) (inRangeSeq_replicate _ _ hr.2)
            · rw [List.length_append, List.length_append] at hlen ⊢
              omega
            · rw [List.drop_zero, List.nil_append]
            · exact drop_length_append _ _ _ hH
          simp only [hseq]
        | int i => exact Bool.noConfusion hr
        | addr a => exact Bool.noConfusion hr
        | bool b => exact Bool.noConfusion hr
        | bytes bs => exact Bool.noConfusion hr
        | str s => exact Bool.noConfusion hr
      | tuple ts =>
        cases v with
        | list vs =>
          simp only [Value.list.sizeOf_spec] at hsz
          rw [validType] at hv
          simp only [Bool.and_eq_true] at hv
          rw [inRange] at hr
          rw [enc] at hlen ⊢
          rw [dec, List.append_assoc]
          have hseq : decSeq ts
              ((encSeqAux ts vs (sumStaticSize ts)).1 ++
                ((encSeqAux ts vs (sumStaticSize ts)).2 ++ rest)) 0
              = some vs := by
            apply ih.2 ts vs _ 0 (sumStaticSize ts) [] rest (by omega) hv.2 hr
            · rw [List.length_append, List.length_append] at hlen ⊢
              omega
            · rw [List.drop_zero, List.nil_append]
            · exact drop_length_append _ _ _
                (encSeqAux_fst_length ts vs (sumStaticSize ts) hv.2 hr)
          simp only [hseq]
        | int i => exact Bool.noConfusion hr
        | addr a => exact Bool.noConfusion hr
        | bool b => exact Bool.noConfusion hr
        | bytes bs => exact Bool.noConfusion hr
        | str s => exact Bool.noConfusion hr
    · intro ts vs F pos tb M R hsz hv hr hF h1 h2
      cases ts with
      | nil =>
        cases vs with
        | nil => rw [decSeq]
        | cons v vs => exact Bool.noConfusion hr
      | cons t ts =>
        cases vs with
        | nil => exact Bool.noConfusion hr
        | cons v vs =>
          simp only [List.cons.sizeOf_spec] at hsz
          rw [validTypes] at hv
          rw [inRangeSeq] at hr
          simp only [Bool.and_eq_true] at hv hr
          cases hdb : isDynamic t with
          | false =>
            rw [encSeqAux_fst_cons_static t ts v vs tb hdb,
              encSeqAux_snd_cons_static t ts v vs tb hdb] at h1
            rw [encSeqAux_snd_cons_static t ts v vs tb hdb] at h2
            rw [List.append_assoc] at h1
            have hel : (enc t v).length = staticSize t :=
              enc_static_length t v hdb hv.1 hr.1
            have hdec : dec t (F.drop pos) = some v := by
              rw [h1]
              refine ih.1 t v _ (by omega) hv.1 hr.1 ?_
              rw [← h1, List.length_drop]
              exact lt_of_le_of_lt (Nat.sub_le _ _) hF
            have hstep : F.drop (pos + staticSize t)
                = (encSeqAux ts vs tb).1 ++ (M ++ ((encSeqAux ts vs tb).2 ++ R)) := by
              rw [← List.drop_drop, h1, ← hel, List.drop_left]
            rw [decSeq, if_neg (by rw [hdb]; simp)]
            simp only [hdec]
            simp only [ih.2 ts vs F (pos + staticSize t) tb M R (by omega) hv.2 hr.2
              hF hstep h2]
          | true =>
            rw [encSeqAux_fst_cons_dyn t ts v vs tb hdb,
              encSeqAux_snd_cons_dyn t ts v vs tb hdb] at h1
            rw [encSeqAux_snd_cons_dyn t ts v vs tb hdb] at h2
            rw [List.append_assoc] at h1
            rw [List.append_assoc] at h2
            have h2len := congrArg List.length h2
            rw [List.length_drop, List.length_append] at h2len
            have hpos0 := enc_dyn_pos t v hdb hv.1 hr.1
            have htblt : tb < 2 ^ 256 := lt_of_lt_of_le (by omega) (le_of_lt hF)
            have hread : readWordAt F pos = some tb := by
              rw [readWordAt, h1, readWord_word tb _ htblt]
            have hdecv : dec t (F.drop tb) = some v := by
              rw [h2]
              refine ih.1 t v _ (by omega) hv.1 hr.1 ?_
              rw [← h2, List.length_drop]
              exact lt_of_le_of_lt (Nat.sub_le _ _) hF
            have hstep1 : F.drop (pos + 32)
                = (encSeqAux ts vs (tb + (enc t v).length)).1 ++
                  ((M ++ enc t v) ++
                    ((encSeqAux ts vs (tb + (enc t v).length)).2 ++ R)) := by
              rw [← List.drop_drop, h1, ← word_length tb, List.drop_left]
              simp [List.append_assoc]
            have hstep2 : F.drop (tb + (enc t v).length)
                = (encSeqAux ts vs (tb + (enc t v).length)).2 ++ R := by
              rw [← List.drop_drop, h2, List.drop_left]
            rw [decSeq, if_pos hdb]
            simp only [hread, hdecv]
            simp only [ih.2 ts vs F (pos + 32) (tb + (enc t v).length)
              (M ++ enc t v) R (by omega) hv.2 hr.2 hF hstep1 hstep2]

/-- Round trip of a single encoded value (front of a buffer, any suffix). -/
theorem dec_enc (t : AbiType) (v : Value) (rest : List Nat)
    (hv : validType t = true) (hr : inRange t v = true)
    (hlen : (enc t v ++ rest).length < 2 ^ 256) :
    dec t (enc t v ++ rest) = some v :=
  (dec_enc_ind (sizeOf v + 1)).1 t v rest (by omega) hv hr hlen

/-- Round trip of an encoded parameter sequence inside its frame. -/
theorem decSeq_enc (ts : List AbiType) (vs : List Value) (F : List Nat)
    (pos tb : Nat) (M R : List Nat)
    (hv : validTypes ts = true) (hr : inRangeSeq ts vs = true)
    (hF : F.length < 2 ^ 256)
    (h1 : F.drop pos = (encSeqAux ts vs tb).1 ++ (M ++ ((encSeqAux ts vs tb).2 ++ R)))
    (h2 : F.drop tb = (encSeqAux ts vs tb).2 ++ R) :
    decSeq ts F pos = some vs :=
  (dec_enc_ind (sizeOf vs + 1)).2 ts vs F pos tb M R (by omega) hv hr hF h1 h2

/-- Top-level round trip: decoding an encoded parameter list recovers it. -/
theorem abiDecode_abiEncode (ts : List AbiType) (vs : List Value)
    (hv : validTypes ts = true) (hr : inRangeSeq ts vs = true)
    (hlen : (abiEncode ts vs).length < 2 ^ 256) :
    abiDecode ts (abiEncode ts vs) = some vs := by
  rw [abiEncode, encSeq] at hlen
  rw [abiDecode, abiEncode, encSeq]
  apply decSeq_enc ts vs _ 0 (sumStaticSize ts) [] [] hv hr hlen
  · rw [List.drop_zero, List.nil_append, List.append_nil]
  · rw [List.append_nil]
    exact drop_length_append _ _ _ (encSeqAux_fst_length ts vs _ hv hr)

/-- C4 probe theorem: single-value round trip without a trailing suffix. -/
theorem c4_codec_roundtrip (t : AbiType) (v : Value)
    (hv : validType t = true) (hr : inRange t v = true)
    (hlen : (enc t v).length < 2 ^ 256) :
    dec t (enc t v) = some v := by
  have h := dec_enc t v [] hv hr (by rw [List.append_nil]; exact hlen)
  rwa [List.append_nil] at h

set_option maxRecDepth 40000 in
theorem c4_codec_roundtrip_witness :
    validType (.tuple [.uint 256, .array (.array (.uint 8)), .string, .bytesN 2,
      .int 16, .bytes, .fixedArray (.array .bool) 2]) = true ∧
    inRange (.tuple [.uint 256, .array (.array (.uint 8)), .string, .bytesN 2,
      .int 16, .bytes, .fixedArray (.array .bool) 2])
      (.list [.int 77, .list [.list [.int 1, .int 2], .list [.int 3]],
        .str "héllo", .bytes [171, 205], .int (-300),
        .bytes [222, 173, 190, 239],
        .list [.list [.bool true], .list [.bool false, .bool true]]]) = true ∧
    dec (.tuple [.uint 256, .array (.array (.uint 8)), .string, .bytesN 2,
      .int 16, .bytes, .fixedArray (.array .bool) 2])
      (enc (.tuple [.uint 256, .array (.array (.uint 8)), .string, .bytesN 2,
        .int 16, .bytes, .fixedArray (.array .bool) 2])
        (.list [.int 77, .list [.list [.int 1, .int 2], .list [.int 3]],
          .str "héllo", .bytes [171, 205], .int (-300),
          .bytes [222, 173, 190, 239],
          .list [.list [.bool true], .list [.bool false, .bool true]]]))
      = some (.list [.int 77, .list [.list [.int 1, .int 2], .list [.int 3]],
          .str "héllo", .bytes [171, 205], .int (-300),
          .bytes [222, 173, 190, 239],
          .list [.list [.bool true], .list [.bool false, .bool true]]]) :=
  ⟨by decide, by decide,
    c4_codec_roundtrip _ _ (by decide) (by decide) (by decide)⟩
